import Mathlib

/-!
Shallow embedding of the openskills Skill Registry Engine
(`src/core/core.ts`, `src/core/frontmatter.ts`, `src/types/index.ts`,
`src/storage/interface.ts`) and proofs about the spec's claims.

Modelling conventions:
* TypeScript strings are Lean `String`s; where the source indexes or
  slices strings we work on `String.data : List Char`.  JavaScript
  string indices are UTF-16 code-unit indices; on the ASCII fragment
  (all inputs exercised here) they coincide with character indices.
* The storage backend maps string keys to stored byte strings.  The
  serialization layer (`JSON.stringify`/`JSON.parse` + zod schema
  validation) is abstracted by the inductive `StoreVal`: each
  constructor records what the stored bytes decode to.
* `Promise`/`async` disappear (every engine call is a pure function of
  the store); `Result<A, DomainError>` becomes `Except DomainError A`.
* Nondeterministic effects are injected explicitly through `Ctx`:
  `gen n` is the n-th `nanoid()` result, `now` is
  `getNow().toISOString()` for the call, `wallNow` is the
  `new Date().toISOString()` used inside `getOrCreateNamespaceId`, and
  `checksum` is the SHA-256 digest function.
-/
/-! ### Characters and JS string primitives -/
abbrev Chars := List Char

/-- The JavaScript `\s` class restricted to ASCII (the Unicode spaces are
not exercised by anything in this development). -/
def jsWhitespace (c : Char) : Bool :=
  c = ' ' || c = '\t' || c = '\n' || c = '\r' || c = '\x0b' || c = '\x0c'

/-- JS `String.prototype.trim` on the ASCII fragment. -/
def trimChars (l : Chars) : Chars :=
  ((l.dropWhile jsWhitespace).reverse.dropWhile jsWhitespace).reverse

/-- The character class `[a-zA-Z0-9_-]` used by the frontmatter key regexes. -/
def isKeyChar (c : Char) : Bool :=
  c.isAlpha || c.isDigit || c = '_' || c = '-'

/-- `[a-z0-9]`. -/
def lowerAlnum (c : Char) : Bool :=
  (('a' ≤ c && c ≤ 'z') : Bool) || c.isDigit

/-- JS `String.prototype.split(sep)` for a single-character separator. -/
def splitOnChar (sep : Char) : Chars → List Chars
  | [] => [[]]
  | c :: rest =>
    let r := splitOnChar sep rest
    if c = sep then [] :: r
    else
      match r with
      | h :: t => (c :: h) :: t
      | [] => [[c]]

/-- Search helper for `jsIndexOfFrom`: the least index `≥ i` at which
`pat` is a prefix of the remaining list. -/
def idxSearch : Chars → Chars → Nat → Option Nat
  | [], pat, i => if pat = [] then some i else none
  | c :: rest, pat, i =>
    if pat.isPrefixOf (c :: rest) then some i else idxSearch rest pat (i + 1)

/-- JS `String.prototype.indexOf(pat, start)` (`none` for `-1`), for the
non-empty patterns used by the frontmatter parser. -/
def jsIndexOfFrom (s pat : Chars) (start : Nat) : Option Nat :=
  idxSearch (s.drop start) pat start

/-! ### Error taxonomy (`src/core/errors.ts`) -/
inductive ErrorCode where
  | NOT_FOUND
  | VERSION_ALREADY_EXISTS
  | CORRUPT_STORAGE_DATA
  | FORBIDDEN
  | INVALID_INPUT
  deriving DecidableEq, Repr

structure DomainError where
  code : ErrorCode
  message : String
  deriving DecidableEq, Repr

namespace Errors

def notFound (resource : String) : DomainError :=
  ⟨ErrorCode.NOT_FOUND, resource ++ " not found"⟩

def versionAlreadyExists (ns name ver : String) : DomainError :=
  ⟨ErrorCode.VERSION_ALREADY_EXISTS,
    "Version " ++ ver ++ " already exists for @" ++ ns ++ "/" ++ name⟩

def corruptStorageData (key reason : String) : DomainError :=
  ⟨ErrorCode.CORRUPT_STORAGE_DATA, "Corrupt data at " ++ key ++ ": " ++ reason⟩

def forbidden (action : String) : DomainError :=
  ⟨ErrorCode.FORBIDDEN, "Forbidden: " ++ action⟩

def invalidInput (field reason : String) : DomainError :=
  ⟨ErrorCode.INVALID_INPUT, "Invalid " ++ field ++ ": " ++ reason⟩

end Errors

abbrev Res (α : Type) := Except DomainError α

/-! ### Data model (`src/types/index.ts`)

The zod schemas become executable `Bool`-valued validators.  TypeScript's
field name `namespace` is a Lean keyword and is rendered `ns` throughout. -/
structure Identity where
  ns : String
  email : Option String := none
  deriving DecidableEq, Repr

structure VersionInfo where
  published : String
  size : Nat
  checksum : String
  deriving DecidableEq, Repr

/-- `versions` models the JSON object `Record<semver, VersionInfo>` as an
insertion-ordered association list with distinct keys (JS object key
order). -/
structure SkillMetadata where
  id : String
  namespaceId : String
  ns : String
  name : String
  created : String
  updated : String
  versions : List (String × VersionInfo)
  latest : Option String
  deriving DecidableEq, Repr

structure UserProfile where
  id : String
  ns : String
  displayName : Option String := none
  bio : Option String := none
  website : Option String := none
  created : String
  updated : String
  deriving DecidableEq, Repr

/-- `nanoidSchema`: 21 characters from `[A-Za-z0-9_-]`. -/
def nanoidOk (s : String) : Bool :=
  s.length = 21 && s.data.all (fun c => c.isAlpha || c.isDigit || c = '_' || c = '-')

/-- Shared shape of `namespaceSchema` and `skillNameSchema`:
`^[a-z0-9]([a-z0-9-]{0,maxLen-2}[a-z0-9])?$` with overall length bound. -/
def nameLikeOk (maxLen : Nat) (s : String) : Bool :=
  match s.data with
  | [] => false
  | l =>
    l.length ≤ maxLen && l.all (fun c => lowerAlnum c || c = '-') &&
      lowerAlnum (l.headD ' ') && lowerAlnum (l.getLastD ' ')

def namespaceOk (s : String) : Bool := nameLikeOk 40 s

def skillNameOk (s : String) : Bool := nameLikeOk 64 s

/-- `(0|[1-9]\d*)`: digits without a leading zero. -/
def digitsNoLead (cs : Chars) : Bool :=
  match cs with
  | [] => false
  | [c] => c.isDigit
  | c :: rest => c.isDigit && !(c = '0') && rest.all Char.isDigit

def semverCoreOk (core : Chars) : Bool :=
  match splitOnChar '.' core with
  | [a, b, c] => digitsNoLead a && digitsNoLead b && digitsNoLead c
  | _ => false

def semverPreOk (pre : Chars) : Bool :=
  (splitOnChar '.' pre).all fun comp =>
    !comp.isEmpty && comp.all (fun c => c.isAlpha || c.isDigit)

/-- `semverSchema`:
`^(0|[1-9]\d*)\.(0|[1-9]\d*)\.(0|[1-9]\d*)(-[a-zA-Z0-9]+(\.[a-zA-Z0-9]+)*)?$`.
Pre-release components contain no hyphen, so a valid version has at most
one `-`. -/
def semverOk (s : String) : Bool :=
  match splitOnChar '-' s.data with
  | [core] => semverCoreOk core
  | [core, pre] => semverCoreOk core && semverPreOk pre
  | _ => false

/-- Consume exactly `n` decimal digits. -/
def takeDigits : Nat → Chars → Option Chars
  | 0, rest => some rest
  | _ + 1, [] => none
  | n + 1, c :: rest => if c.isDigit then takeDigits n rest else none

def expectChar (ch : Char) : Chars → Option Chars
  | [] => none
  | c :: rest => if c = ch then some rest else none

/-- Tail `(\.\d+)?Z$` of the zod datetime regex. -/
def dtTail (cs : Chars) : Bool :=
  match cs with
  | ['Z'] => true
  | '.' :: rest =>
    let ds := rest.takeWhile Char.isDigit
    !ds.isEmpty && rest.drop ds.length = ['Z']
  | _ => false

/-- `z.string().datetime()` with default options, i.e. the regex
`^\d{4}-\d{2}-\d{2}T\d{2}:\d{2}:\d{2}(\.\d+)?Z$` (UTC, optional
fractional seconds).  `Date.prototype.toISOString` always produces a
match. -/
def datetimeOk (s : String) : Bool :=
  (do
    let r ← takeDigits 4 s.data
    let r ← expectChar '-' r
    let r ← takeDigits 2 r
    let r ← expectChar '-' r
    let r ← takeDigits 2 r
    let r ← expectChar 'T' r
    let r ← takeDigits 2 r
    let r ← expectChar ':' r
    let r ← takeDigits 2 r
    let r ← expectChar ':' r
    let r ← takeDigits 2 r
    if dtTail r then some () else none).isSome

/-- Conservative approximation of `z.string().url()` (which attempts
`new URL(s)`): an alphabetic scheme followed by `://` and a non-empty
remainder.  No claim in this development stores or inspects a `website`
value, so only the shape of the check matters. -/
def urlOk (s : String) : Bool :=
  match splitOnChar ':' s.data with
  | scheme :: ('/' :: '/' :: h :: _) :: _ =>
    !scheme.isEmpty && scheme.all Char.isAlpha && (h = h)
  | _ => false

def validVersionInfo (vi : VersionInfo) : Bool :=
  datetimeOk vi.published

/-- `skillMetadataSchema.safeParse` succeeds. -/
def validMetadata (m : SkillMetadata) : Bool :=
  nanoidOk m.id && nanoidOk m.namespaceId && namespaceOk m.ns &&
    skillNameOk m.name && datetimeOk m.created && datetimeOk m.updated &&
    m.versions.all (fun p => semverOk p.1 && validVersionInfo p.2) &&
    (match m.latest with
     | none => true
     | some l => semverOk l)

/-- `userProfileSchema.safeParse` succeeds. -/
def validProfile (p : UserProfile) : Bool :=
  nanoidOk p.id && namespaceOk p.ns &&
    p.displayName.all (fun d => d.length ≤ 100) &&
    p.bio.all (fun b => b.length ≤ 500) &&
    p.website.all urlOk &&
    datetimeOk p.created && datetimeOk p.updated

/-- `frontmatterNameSchema`: `^[a-z0-9]+(-[a-z0-9]+)*$`, length ≤ 64
(min length 1 is implied by the non-empty components). -/
def frontmatterNameOk (s : String) : Bool :=
  s.length ≤ 64 &&
    (splitOnChar '-' s.data).all fun comp => !comp.isEmpty && comp.all lowerAlnum

/-! ### Latest-version resolution (`resolveLatestVersion`) -/
/-- The exact integer denoted by a semver part: a non-empty digit string
maps to its value.  `Number("")` is `0`, matching the `?? 0` fallback;
non-numeric parts (which give `NaN` in JS and never arise from valid
semver) are also mapped to `0`. -/
def jsNumPart (cs : Chars) : Nat :=
  if !cs.isEmpty && cs.all Char.isDigit then
    cs.foldl (fun n c => n * 10 + (c.toNat - 48)) 0
  else 0

/-- Base-2 logarithm by fuel recursion (so that it evaluates by
unfolding); with fuel `n` it computes `Nat.log2 n`, the recursion depth
being at most `log2 n ≤ n`. -/
def log2fuel : Nat → Nat → Nat
  | 0, _ => 0
  | fuel + 1, n => if n < 2 then 0 else log2fuel fuel (n / 2) + 1

/-- Round a natural number to the nearest IEEE-754 binary64 value with
unbounded exponent: 53 significant bits, ties to even.  Below `2^53`
every integer is exact. -/
def roundFloat (n : Nat) : Nat :=
  if n < 9007199254740992 then n
  else
    let e := log2fuel n n - 52
    let q := n / 2 ^ e
    let r := n % 2 ^ e
    let half := 2 ^ e / 2
    if half < r ∨ (r = half ∧ q % 2 = 1) then (q + 1) * 2 ^ e else q * 2 ^ e

/-- JS `Number` applied to a (conceptually unbounded) integer: the
binary64 rounding of its value, with `none` for `Infinity` (the rounded
value overflows `2^1024`, i.e. exceeds the largest finite double
`(2^53-1)·2^971`). -/
def jsFloat (n : Nat) : Option Nat :=
  if 179769313486231590772930519078902473361797697894230657273430081157732675805500963132708477322407536021120113879871393357658789768814416622492847430639474124377767893424865485276302219601246094119453082952085005768838150682342462881473913110540827237163350510684586298239947245938479716304835356329624224137216 ≤ roundFloat n then
    none
  else some (roundFloat n)

/-- `v.split("-")[0]?.split(".").map(Number)` padded with `?? 0`, as
exact integers (what the digit strings denote). -/
def semverKey (v : String) : Nat × Nat × Nat :=
  let core := (splitOnChar '-' v.data).headD []
  let parts := splitOnChar '.' core
  (jsNumPart (parts.getD 0 []), jsNumPart (parts.getD 1 []),
    jsNumPart (parts.getD 2 []))

/-- The MAJOR.MINOR.PATCH key exactly as the JS comparator sees it:
each part passed through `Number`, i.e. collapsed to binary64. -/
def semverKeyF (v : String) : Option Nat × Option Nat × Option Nat :=
  (jsFloat (semverKey v).1, jsFloat (semverKey v).2.1, jsFloat (semverKey v).2.2)

/-- All three numeric components are below `2^53`, i.e. exactly
representable in binary64 (every realistic version number). -/
def smallSemver (v : String) : Bool :=
  (semverKey v).1 < 9007199254740992 &&
    (semverKey v).2.1 < 9007199254740992 &&
    (semverKey v).2.2 < 9007199254740992

/-- Strict order on binary64-valued parts (`none` = `Infinity` is the
top element; two infinities compare equal: `Infinity !== Infinity` is
false, and had the comparator returned `Infinity - Infinity = NaN`,
`SortCompare` coerces `NaN` to `+0` anyway). -/
def FloLt : Option Nat → Option Nat → Prop
  | some a, some b => a < b
  | some _, none => True
  | none, _ => False

instance (a b : Option Nat) : Decidable (FloLt a b) :=
  match a, b with
  | some a, some b => inferInstanceAs (Decidable (a < b))
  | some _, none => Decidable.isTrue trivial
  | none, some _ => Decidable.isFalse (fun h => h)
  | none, none => Decidable.isFalse (fun h => h)

/-- Strict lexicographic order on exact MAJOR.MINOR.PATCH integer
triples (what "numeric comparison" means in the spec's words). -/
def TriLt (a b : Nat × Nat × Nat) : Prop :=
  a.1 < b.1 ∨ (a.1 = b.1 ∧ (a.2.1 < b.2.1 ∨ (a.2.1 = b.2.1 ∧ a.2.2 < b.2.2)))

instance (a b : Nat × Nat × Nat) : Decidable (TriLt a b) :=
  inferInstanceAs (Decidable
    (a.1 < b.1 ∨ (a.1 = b.1 ∧ (a.2.1 < b.2.1 ∨ (a.2.1 = b.2.1 ∧ a.2.2 < b.2.2)))))

/-- Strict lexicographic order on binary64 triples — the order the sort
comparator in `resolveLatestVersion` actually implements (descending):
`aMajor !== bMajor` is float equality, and the sign of the float
subtraction orders distinct finite doubles correctly. -/
def TriLtF (a b : (Option Nat) × (Option Nat) × (Option Nat)) : Prop :=
  FloLt a.1 b.1 ∨ (a.1 = b.1 ∧ (FloLt a.2.1 b.2.1 ∨ (a.2.1 = b.2.1 ∧ FloLt a.2.2 b.2.2)))

instance (a b : (Option Nat) × (Option Nat) × (Option Nat)) :
    Decidable (TriLtF a b) :=
  inferInstanceAs (Decidable
    (FloLt a.1 b.1 ∨ (a.1 = b.1 ∧ (FloLt a.2.1 b.2.1 ∨ (a.2.1 = b.2.1 ∧ FloLt a.2.2 b.2.2)))))

/-- Left fold selecting the first element whose binary64 triple is
maximal. -/
def pickLatest (first : String) (rest : List String) : String :=
  rest.foldl
    (fun best x => if TriLtF (semverKeyF best) (semverKeyF x) then x else best)
    first

/-- `resolveLatestVersion` of `core.ts`: filter out pre-releases when a
stable version exists, then take element 0 of the array sorted
descending by the `Number`-valued (binary64) triple.  The comparator is
consistent (`SortCompare` coerces a `NaN` comparison result to `+0`)
and `Array.prototype.sort` is stable, so element 0 is exactly the first
list element whose binary64 triple is maximal, which is what
`pickLatest` computes. -/
def resolveLatestVersion (versions : List String) : Option String :=
  if versions.isEmpty then none
  else
    let stableVersions := versions.filter fun v => !(v.data.contains '-')
    let targetVersions := if stableVersions.length > 0 then stableVersions else versions
    match targetVersions with
    | [] => none
    | v :: rest => some (pickLatest v rest)

/-! ### Frontmatter parser (`src/core/frontmatter.ts`) -/
inductive FrontmatterErrorCode where
  | MISSING_FRONTMATTER
  | INVALID_YAML
  | INVALID_FRONTMATTER
  deriving DecidableEq, Repr

structure FrontmatterError where
  code : FrontmatterErrorCode
  message : String
  details : Option String := none
  deriving DecidableEq, Repr

/-- A value in the simple YAML record: a scalar string or the one
supported level of nesting (string-to-string object). -/
inductive YamlVal where
  | str (s : String)
  | obj (kvs : List (String × String))
  deriving DecidableEq, Repr

structure SkillFrontmatter where
  name : String
  description : String
  license : Option String := none
  compatibility : Option String := none
  metadata : Option (List (String × String)) := none
  deriving DecidableEq, Repr

structure ParsedFrontmatter where
  frontmatter : SkillFrontmatter
  body : String
  deriving DecidableEq, Repr

def squote : Char := Char.ofNat 39

def dquote : Char := Char.ofNat 34

/-- `unquote` of `frontmatter.ts`: strip one pair of matching surrounding
quotes.  On the one-character strings `"` / `'` (where `startsWith` and
`endsWith` both hit the same character) JS `slice(1, -1)` yields `""`,
as does `(drop 1).dropLast`. -/
def unquoteChars (v : Chars) : Chars :=
  if (v.headD ' ' = dquote && v.getLastD ' ' = dquote) ||
      (v.headD ' ' = squote && v.getLastD ' ' = squote) then
    (v.drop 1).dropLast
  else v

/-- JS object assignment `r[k] = v`: replace in place if the key exists,
otherwise append (JS objects preserve insertion order). -/
def setKey {α : Type} (r : List (String × α)) (k : String) (v : α) :
    List (String × α) :=
  if r.any (fun p => p.1 == k) then
    r.map fun p => if p.1 == k then (k, v) else p
  else r ++ [(k, v)]

/-- Match `/^([a-zA-Z0-9_-]+):\s*(.*)$/` against one line.  The two
character classes are disjoint from `:`/whitespace, so the greedy runs
are the only decomposition the regex engine can pick; `.` matches
neither `\n` nor `\r`, and backtracking the greedy `\s*` cannot help
since the shortened value would still contain the offending
terminator. -/
def matchTopKV (line : Chars) : Option (Chars × Chars) :=
  let key := line.takeWhile isKeyChar
  let rest := line.dropWhile isKeyChar
  if key.isEmpty then none
  else
    match rest with
    | ':' :: rest2 =>
      let v := rest2.dropWhile jsWhitespace
      if v.any (fun c => c = '\n' || c = '\r') then none else some (key, v)
    | _ => none

/-- Match `/^\s+([a-zA-Z0-9_-]+):\s*(.*)$/` (the nested-line regex). -/
def matchNestedKV (line : Chars) : Option (Chars × Chars) :=
  let ws := line.takeWhile jsWhitespace
  if ws.isEmpty then none
  else matchTopKV (line.dropWhile jsWhitespace)

/-- The loop body of `parseSimpleYaml`, processing the remaining lines
with the mutable state `(result, currentKey, currentObject)` made
explicit.  The unreachable `if (!key)` branch of the source (the regex
capture group is non-empty whenever it matches) is omitted. -/
def yamlLoop :
    List Chars → List (String × YamlVal) → Option String →
      Option (List (String × String)) →
      Except FrontmatterError (List (String × YamlVal))
  | [], result, currentKey, currentObject =>
    match currentKey, currentObject with
    | some k, some o => Except.ok (setKey result k (YamlVal.obj o))
    | _, _ => Except.ok result
  | line :: rest, result, currentKey, currentObject =>
    if (trimChars line).isEmpty then
      yamlLoop rest result currentKey currentObject
    else if line.take 2 = [' ', ' '] && currentKey.isSome then
      match matchNestedKV line with
      | some (k, v) =>
        let o := currentObject.getD []
        yamlLoop rest result currentKey
          (some (setKey o (String.mk k) (String.mk (unquoteChars (trimChars v)))))
      | none => yamlLoop rest result currentKey currentObject
    else
      let result1 :=
        match currentKey, currentObject with
        | some k, some o => setKey result k (YamlVal.obj o)
        | _, _ => result
      match matchTopKV line with
      | none =>
        Except.error ⟨FrontmatterErrorCode.INVALID_YAML,
          "Invalid YAML syntax: " ++ String.mk line, none⟩
      | some (k, v) =>
        let key := String.mk k
        let value := String.mk (trimChars v)
        if value = "" then yamlLoop rest result1 (some key) (some [])
        else
          yamlLoop rest (setKey result1 key (YamlVal.str (String.mk (unquoteChars (trimChars v)))))
            (some key) none

/-- `parseSimpleYaml` of `frontmatter.ts`. -/
def parseSimpleYaml (yaml : Chars) :
    Except FrontmatterError (List (String × YamlVal)) :=
  yamlLoop (splitOnChar '\n' yaml) [] none none

def lookupY (r : List (String × YamlVal)) (k : String) : Option YamlVal :=
  (r.find? fun p => p.1 == k).map Prod.snd

/-- Validate an optional scalar field (`z.string().max(maxLen).optional()`):
absent is fine, a string must satisfy the length bound, an object fails. -/
def checkOptStr : Option YamlVal → Nat → Option (Option String)
  | none, _ => some none
  | some (YamlVal.str v), maxLen => if v.length ≤ maxLen then some (some v) else none
  | some (YamlVal.obj _), _ => none

/-- Validate the optional `metadata` field
(`z.record(z.string(), z.string()).optional()`): an object passes, a
scalar fails. -/
def checkMeta : Option YamlVal → Option (Option (List (String × String)))
  | none => some none
  | some (YamlVal.obj o) => some (some o)
  | some (YamlVal.str _) => none

/-- `skillFrontmatterSchema.safeParse` on the parsed record.  zod strips
unrecognized keys rather than failing on them. -/
def validateFrontmatter (r : List (String × YamlVal)) : Option SkillFrontmatter :=
  match lookupY r "name", lookupY r "description" with
  | some (YamlVal.str n), some (YamlVal.str d) =>
    if frontmatterNameOk n && decide (1 ≤ d.length) && decide (d.length ≤ 1024) then
      match checkOptStr (lookupY r "license") 100,
          checkOptStr (lookupY r "compatibility") 100,
          checkMeta (lookupY r "metadata") with
      | some lic, some comp, some md =>
        some { name := n, description := d, license := lic,
               compatibility := comp, metadata := md }
      | _, _, _ => none
    else none
  | _, _ => none

/-- Placeholder for the zod validation error message attached to
`INVALID_FRONTMATTER` / `CorruptStorageData` failures (the exact text of
`validated.error.message` is not modelled; no claim depends on it). -/
def schemaFailMsg : String := "schema validation failed"

/-- `parseFrontmatter` of `frontmatter.ts`. -/
def parseFrontmatter (content : String) :
    Except FrontmatterError ParsedFrontmatter :=
  let cs := content.data
  -- `if (!content.startsWith("---")) return err` of the source, with the
  -- branches flipped so the condition is the positive `startsWith`.
  if cs.take 3 = ['-', '-', '-'] then
    match jsIndexOfFrom cs ['\n', '-', '-', '-'] 3 with
    | none =>
      Except.error ⟨FrontmatterErrorCode.MISSING_FRONTMATTER,
        "Frontmatter must have a closing delimiter (---)", none⟩
    | some endIndex =>
      let yamlContent := trimChars ((cs.drop 4).take (endIndex - 4))
      let body := trimChars (cs.drop (endIndex + 4))
      match parseSimpleYaml yamlContent with
      | Except.error e => Except.error e
      | Except.ok record =>
        match validateFrontmatter record with
        | none =>
          Except.error ⟨FrontmatterErrorCode.INVALID_FRONTMATTER,
            "Invalid frontmatter", some schemaFailMsg⟩
        | some fm => Except.ok ⟨fm, String.mk body⟩
  else
    Except.error ⟨FrontmatterErrorCode.MISSING_FRONTMATTER,
      "Content must start with YAML frontmatter (---)", none⟩

deriving instance DecidableEq for Except

/-- How `publishSkill` renders a frontmatter error into the
`InvalidInput` reason. -/
def fmErrorText (e : FrontmatterError) : String :=
  match e.details with
  | some d => e.message ++ ": " ++ d
  | none => e.message

/-! ### Storage backend (`src/storage/interface.ts`)

The store maps string keys to stored byte strings.  A stored byte
string is abstracted by what it decodes to: `text` is a raw non-JSON
blob (version markdown always starts with `---` after frontmatter
validation, which can never parse as JSON), `metaDoc`/`profileDoc` are
the JSON serializations of the corresponding documents, `badJson` is a
blob rejected by `JSON.parse`, and `badSchema` is JSON that parses but
satisfies neither persisted-document schema. -/
inductive StoreVal where
  | text (s : String)
  | metaDoc (m : SkillMetadata)
  | profileDoc (p : UserProfile)
  | badJson (s : String)
  | badSchema (s : String)
  deriving DecidableEq, Repr

abbrev Store := String → Option StoreVal

/-- `put`: overwrite the value at a key. -/
def Store.put (s : Store) (k : String) (v : StoreVal) : Store :=
  fun k2 => if k2 = k then some v else s k2

/-- Does `JSON.parse` succeed on the stored bytes? -/
def jsonParses : StoreVal → Bool
  | StoreVal.text _ => false
  | StoreVal.badJson _ => false
  | _ => true

/-- `skillMetadataSchema.safeParse` applied to the stored bytes: only a
metadata document that satisfies the schema validates (a profile
document lacks the required `namespaceId`/`name`/`versions`/`latest`
fields, and `badSchema` fails every document schema by definition). -/
def decodeMetaVal : StoreVal → Option SkillMetadata
  | StoreVal.metaDoc m => if validMetadata m then some m else none
  | _ => none

/-- A stored metadata document also satisfies `userProfileSchema` when
its `id`/`namespace`/`created`/`updated` fields do (zod strips the
unrecognized keys), which `profileViewOfMeta` reflects. -/
def profileViewOfMeta (m : SkillMetadata) : UserProfile :=
  { id := m.id, ns := m.ns, created := m.created, updated := m.updated }

/-- `userProfileSchema.safeParse` applied to the stored bytes. -/
def decodeProfileVal : StoreVal → Option UserProfile
  | StoreVal.profileDoc p => if validProfile p then some p else none
  | StoreVal.metaDoc m =>
    if validProfile (profileViewOfMeta m) then some (profileViewOfMeta m) else none
  | _ => none

/-! ### The engine (`src/core/core.ts`) -/
/-!
Storage key helpers (`Keys` of `core.ts`).  Each key is written as
`prefix ++ constant-suffix` so that the suffix discrimination lemmas
below apply directly.
-/
namespace Keys

def metadata (ns name : String) : String :=
  ("skills/" ++ ns ++ "/" ++ name) ++ "/metadata.json"

def version (ns name ver : String) : String :=
  ("skills/" ++ ns ++ "/" ++ name ++ "/versions/" ++ ver) ++ ".md"

def userProfile (ns : String) : String :=
  ("skills/" ++ ns) ++ "/user.json"

end Keys

/-- The injected effects of one engine call (see the header comment). -/
structure Ctx where
  maxSkillBytes : Nat
  now : String
  wallNow : String
  gen : Nat → String
  checksum : String → String

/-- `makeCore`'s default for `maxSkillBytes`. -/
def defaultMaxSkillBytes : Nat := 262144

/-- Mutable world state: the store plus the position in the `nanoid`
supply. -/
structure St where
  store : Store
  ctr : Nat

/-- `loadMetadata` of `core.ts`: absent is `ok null`, a JSON parse
failure or schema violation is `CorruptStorageData`. -/
def loadMetadata (store : Store) (ns name : String) : Res (Option SkillMetadata) :=
  let key := Keys.metadata ns name
  match store key with
  | none => Except.ok none
  | some v =>
    if jsonParses v then
      match decodeMetaVal v with
      | some m => Except.ok (some m)
      | none => Except.error (Errors.corruptStorageData key schemaFailMsg)
    else Except.error (Errors.corruptStorageData key "invalid JSON")

/-- `getOrCreateNamespaceId` of `core.ts`: reuse the profile's id when
the stored profile parses and validates, otherwise (absent *or*
undecodable) create and store a fresh profile with a new `nanoid`,
timestamped with `new Date().toISOString()` (not `getNow`). -/
def getOrCreateNamespaceId (ctx : Ctx) (ns : String) (st : St) : String × St :=
  let key := Keys.userProfile ns
  match (st.store key).bind decodeProfileVal with
  | some p => (p.id, st)
  | none =>
    let id := ctx.gen st.ctr
    let profile : UserProfile :=
      { id := id, ns := ns, created := ctx.wallNow, updated := ctx.wallNow }
    (id, { store := st.store.put key (StoreVal.profileDoc profile), ctr := st.ctr + 1 })

structure PublishSkillInput where
  ns : String
  name : String
  version : String
  content : String
  identity : Identity
  deriving Repr

structure PublishSkillResult where
  ns : String
  name : String
  version : String
  size : Nat
  checksum : String
  frontmatter : SkillFrontmatter
  deriving DecidableEq, Repr

/-- `content` is the raw stored blob (`storage.get` returns the stored
bytes unchanged, which in this embedding is the `StoreVal`). -/
structure GetSkillContentResult where
  content : StoreVal
  skillId : String
  namespaceId : String
  deriving DecidableEq, Repr

structure GetSkillLatestResult where
  version : String
  content : StoreVal
  skillId : String
  namespaceId : String
  deriving DecidableEq, Repr

/-- `publishSkill` of `core.ts`.  The checks run in source order:
authorization, size, frontmatter, name consistency, then the atomic
`putIfNotExists` (modelled by the match on the current value at the
version key: occupied means `VersionAlreadyExists`, free means the
write happens).  Only after the version write does it load and rewrite
the metadata document. -/
def publishSkill (ctx : Ctx) (input : PublishSkillInput) (st : St) :
    Res PublishSkillResult × St :=
  if input.identity.ns ≠ input.ns then
    (Except.error (Errors.forbidden ("Cannot publish to namespace @" ++ input.ns)), st)
  else
    let contentBytes := input.content.utf8ByteSize
    if contentBytes > ctx.maxSkillBytes then
      (Except.error (Errors.invalidInput "content"
        ("Exceeds max size of " ++ toString ctx.maxSkillBytes ++ " bytes")), st)
    else
      match parseFrontmatter input.content with
      | Except.error e =>
        (Except.error (Errors.invalidInput "content" (fmErrorText e)), st)
      | Except.ok parsed =>
        if parsed.frontmatter.name ≠ input.name then
          (Except.error (Errors.invalidInput "content"
            ("Frontmatter name \x22" ++ parsed.frontmatter.name ++
              "\x22 does not match URL path \x22" ++ input.name ++ "\x22")), st)
        else
          let versionKey := Keys.version input.ns input.name input.version
          match st.store versionKey with
          | some _ =>
            (Except.error
              (Errors.versionAlreadyExists input.ns input.name input.version), st)
          | none =>
            let st1 : St := { st with store := st.store.put versionKey (StoreVal.text input.content) }
            match loadMetadata st1.store input.ns input.name with
            | Except.error e => (Except.error e, st1)
            | Except.ok metaOpt =>
              let checksum := ctx.checksum input.content
              let result : PublishSkillResult :=
                { ns := input.ns, name := input.name, version := input.version,
                  size := contentBytes, checksum := checksum,
                  frontmatter := parsed.frontmatter }
              match metaOpt with
              | none =>
                let pr := getOrCreateNamespaceId ctx input.ns st1
                let metadata : SkillMetadata :=
                  { id := ctx.gen pr.2.ctr, namespaceId := pr.1,
                    ns := input.ns, name := input.name,
                    created := ctx.now, updated := ctx.now,
                    versions := [(input.version,
                      { published := ctx.now, size := contentBytes, checksum := checksum })],
                    latest := some input.version }
                -- `saveMetadata` keys off the document's own
                -- `namespace`/`name` fields; in the create branch these
                -- are the call's inputs.
                (Except.ok result,
                  { store := pr.2.store.put (Keys.metadata input.ns input.name)
                      (StoreVal.metaDoc metadata),
                    ctr := pr.2.ctr + 1 })
              | some old =>
                let metadata : SkillMetadata :=
                  { old with
                    updated := ctx.now,
                    versions := setKey old.versions input.version
                      { published := ctx.now, size := contentBytes, checksum := checksum },
                    latest := resolveLatestVersion
                      (old.versions.map Prod.fst ++ [input.version]) }
                -- `saveMetadata` keys off the document's own
                -- `namespace`/`name` fields, which the update branch
                -- copies from the loaded document — not off the inputs.
                (Except.ok result,
                  { st1 with
                    store := st1.store.put (Keys.metadata old.ns old.name)
                        (StoreVal.metaDoc metadata) })

/-- `getSkillContent` of `core.ts` (read-only). -/
def getSkillContent (ns name ver : String) (st : St) : Res GetSkillContentResult :=
  match loadMetadata st.store ns name with
  | Except.error e => Except.error e
  | Except.ok none =>
    Except.error (Errors.notFound ("@" ++ ns ++ "/" ++ name ++ "@" ++ ver))
  | Except.ok (some m) =>
    match st.store (Keys.version ns name ver) with
    | none =>
      Except.error (Errors.notFound ("@" ++ ns ++ "/" ++ name ++ "@" ++ ver))
    | some content =>
      Except.ok { content := content, skillId := m.id, namespaceId := m.namespaceId }

/-- `getSkillMetadata` of `core.ts` (read-only). -/
def getSkillMetadata (ns name : String) (st : St) : Res SkillMetadata :=
  match loadMetadata st.store ns name with
  | Except.error e => Except.error e
  | Except.ok none => Except.error (Errors.notFound ("@" ++ ns ++ "/" ++ name))
  | Except.ok (some m) => Except.ok m

/-- `getSkillLatest` of `core.ts` (read-only). -/
def getSkillLatest (ns name : String) (st : St) : Res GetSkillLatestResult :=
  match loadMetadata st.store ns name with
  | Except.error e => Except.error e
  | Except.ok none => Except.error (Errors.notFound ("@" ++ ns ++ "/" ++ name))
  | Except.ok (some m) =>
    match m.latest with
    | none =>
      Except.error (Errors.notFound ("@" ++ ns ++ "/" ++ name ++ " has no versions"))
    | some latest =>
      match st.store (Keys.version ns name latest) with
      | none =>
        Except.error (Errors.corruptStorageData (Keys.metadata ns name)
          ("Latest version " ++ latest ++ " not found in storage"))
      | some content =>
        Except.ok { version := latest, content := content,
                    skillId := m.id, namespaceId := m.namespaceId }

/-- `getProfile` of `core.ts` (read-only): unlike the lenient loads, a
stored but undecodable profile is reported as `CorruptStorageData`. -/
def getProfile (ns : String) (st : St) : Res UserProfile :=
  let key := Keys.userProfile ns
  match st.store key with
  | none => Except.error (Errors.notFound ("Profile @" ++ ns))
  | some v =>
    if jsonParses v then
      match decodeProfileVal v with
      | some p => Except.ok p
      | none => Except.error (Errors.corruptStorageData key schemaFailMsg)
    else Except.error (Errors.corruptStorageData key "invalid JSON")

structure ProfileFields where
  displayName : Option String := none
  bio : Option String := none
  website : Option String := none
  deriving DecidableEq, Repr

structure UpdateProfileInput where
  ns : String
  profile : ProfileFields
  identity : Identity
  deriving Repr

/-- `updateProfile` of `core.ts`.  A stored profile that fails JSON
parsing or schema validation is treated exactly like an absent one
(`existing` stays `null`); `nanoid()` is evaluated only when
`existing?.id` is nullish, hence the counter moves only in that
branch. -/
def updateProfile (ctx : Ctx) (input : UpdateProfileInput) (st : St) :
    Res UserProfile × St :=
  if input.identity.ns ≠ input.ns then
    (Except.error (Errors.forbidden ("Cannot update profile for @" ++ input.ns)), st)
  else
    let key := Keys.userProfile input.ns
    match (st.store key).bind decodeProfileVal with
    | some e =>
      let updated : UserProfile :=
        { id := e.id, ns := input.ns,
          displayName := input.profile.displayName.orElse fun _ => e.displayName,
          bio := input.profile.bio.orElse fun _ => e.bio,
          website := input.profile.website.orElse fun _ => e.website,
          created := e.created, updated := ctx.now }
      (Except.ok updated,
        { st with store := st.store.put key (StoreVal.profileDoc updated) })
    | none =>
      let updated : UserProfile :=
        { id := ctx.gen st.ctr, ns := input.ns,
          displayName := input.profile.displayName,
          bio := input.profile.bio,
          website := input.profile.website,
          created := ctx.now, updated := ctx.now }
      (Except.ok updated,
        { store := st.store.put key (StoreVal.profileDoc updated), ctr := st.ctr + 1 })

/-! ### Shared concrete scenario used by witnesses and counterexamples -/
/-- A fixed 21-character nanoid supply (collisions are irrelevant to the
claims; only schema validity of the generated ids matters). -/
def cGen : Nat → String := fun _ => "AAAAAAAAAAAAAAAAAAAAA"

def cCtx : Ctx :=
  { maxSkillBytes := defaultMaxSkillBytes,
    now := "2024-01-01T00:00:00.000Z",
    wallNow := "2024-01-01T00:00:00.000Z",
    gen := cGen,
    checksum := fun _ => "sha256:stub" }

def emptySt : St := { store := fun _ => none, ctr := 0 }

/-- A minimal skill document with valid frontmatter for skill name `x`. -/
def contentX : String := "---\nname: x\ndescription: d\n---\nbody"

def inputX (ver : String) : PublishSkillInput :=
  { ns := "acme", name := "x", version := ver, content := contentX,
    identity := { ns := "acme" } }

def pubX (ver : String) (st : St) : St := (publishSkill cCtx (inputX ver) st).2

/-- The `latest` field of the stored metadata document, if one is stored. -/
def storedLatest (st : St) (ns name : String) : Option String :=
  match st.store (Keys.metadata ns name) with
  | some (StoreVal.metaDoc m) => m.latest
  | _ => none

/-- A stable version contains no `-`. -/
def stableVer (v : String) : Bool := !(v.data.contains '-')

/-- Publish three versions of `@acme/x` in the given order, starting from
the empty store. -/
def pub3 (a b c : String) : St := pubX c (pubX b (pubX a emptySt))

/-- Publish two versions of `@acme/x` in the given order, starting from
the empty store. -/
def pub2 (a b : String) : St := pubX b (pubX a emptySt)

/-- A context with a one-byte size ceiling, to exercise the size check
on small concrete contents. -/
def smallCtx : Ctx := { cCtx with maxSkillBytes := 1 }

/-- A state whose metadata document for `@acme/x` is unparseable JSON. -/
def corruptMetaSt : St :=
  { store := Store.put (fun _ => none) (Keys.metadata "acme" "x")
      (StoreVal.badJson "not json"),
    ctr := 0 }

/-- A valid metadata document with no versions and a null `latest`. -/
def emptyMeta : SkillMetadata :=
  { id := "AAAAAAAAAAAAAAAAAAAAA", namespaceId := "AAAAAAAAAAAAAAAAAAAAA",
    ns := "acme", name := "x",
    created := "2024-01-01T00:00:00.000Z", updated := "2024-01-01T00:00:00.000Z",
    versions := [], latest := none }

/-- A valid metadata document whose `latest` names version `1.0.0`. -/
def danglingMeta : SkillMetadata :=
  { emptyMeta with
    versions := [("1.0.0",
      { published := "2024-01-01T00:00:00.000Z", size := 35, checksum := "sha256:stub" })],
    latest := some "1.0.0" }

def noLatestSt : St :=
  { store := Store.put (fun _ => none) (Keys.metadata "acme" "x")
      (StoreVal.metaDoc emptyMeta),
    ctr := 0 }

/-- A state where metadata references version `1.0.0` but the blob is
missing. -/
def danglingSt : St :=
  { store := Store.put (fun _ => none) (Keys.metadata "acme" "x")
      (StoreVal.metaDoc danglingMeta),
    ctr := 0 }

/-- The freshly generated profile `updateProfile` writes when no
decodable profile exists. -/
def freshProfile (ctx : Ctx) (input : UpdateProfileInput) (st : St) : UserProfile :=
  { id := ctx.gen st.ctr, ns := input.ns,
    displayName := input.profile.displayName,
    bio := input.profile.bio,
    website := input.profile.website,
    created := ctx.now, updated := ctx.now }

def corruptProfSt : St :=
  { store := Store.put (fun _ => none) (Keys.userProfile "acme")
      (StoreVal.badJson "nope"),
    ctr := 7 }

def updInputAcme : UpdateProfileInput :=
  { ns := "acme", profile := {}, identity := { ns := "acme" } }

/-- The metadata document written by the create branch of `publishSkill`
(first publish of a skill), as a function of the call's inputs. -/
def createdMeta (ctx : Ctx) (input : PublishSkillInput) (st : St) : SkillMetadata :=
  let st1 : St := { st with
    store := st.store.put (Keys.version input.ns input.name input.version)
        (StoreVal.text input.content) }
  let pr := getOrCreateNamespaceId ctx input.ns st1
  { id := ctx.gen pr.2.ctr, namespaceId := pr.1,
    ns := input.ns, name := input.name,
    created := ctx.now, updated := ctx.now,
    versions := [(input.version,
      { published := ctx.now, size := input.content.utf8ByteSize,
        checksum := ctx.checksum input.content })],
    latest := some input.version }

/-! ### Claim C6: what the YAML parser rejects -/
/-- The lines of the header block exactly as `parseFrontmatter` feeds
them to `parseSimpleYaml` (empty when there is no closing delimiter). -/
def yamlLinesOf (content : String) : List Chars :=
  match jsIndexOfFrom content.data ['\n', '-', '-', '-'] 3 with
  | none => []
  | some endIndex =>
    splitOnChar '\n' (trimChars ((content.data.drop 4).take (endIndex - 4)))

/-- A schema-valid metadata document is stored at the given metadata
key. -/
def GoodMetaAt (st : St) (d e : String) : Prop :=
  ∃ m : SkillMetadata,
    st.store (Keys.metadata d e) = some (StoreVal.metaDoc m) ∧
      validMetadata m = true

/-! ### Traces of mutating engine operations -/
/-- One mutating engine call together with its injected effects.  The
read-only operations (`getSkillContent`, `getSkillMetadata`,
`getSkillLatest`, `listVersions`, `listSkillsInNamespace`, `listSkills`,
`getProfile`) return no new state, so a trace of store mutations is a
sequence of publishes and profile updates. -/
inductive Op where
  | pub (ctx : Ctx) (input : PublishSkillInput)
  | upd (ctx : Ctx) (input : UpdateProfileInput)

def applyOp (st : St) : Op → St
  | Op.pub ctx input => (publishSkill ctx input st).2
  | Op.upd ctx input => (updateProfile ctx input st).2

def runOps (st : St) (ops : List Op) : St := ops.foldl applyOp st

/-- The spec's standing assumption (§1) that the engine receives
already-validated inputs, restricted to what can flow into a stored
metadata document: the call timestamp is a real ISO datetime (always
true of `toISOString()`) and the published version is valid semver. -/
def ValidOp : Op → Prop
  | Op.pub ctx input => datetimeOk ctx.now = true ∧ semverOk input.version = true
  | Op.upd _ _ => True

/-! ### Theorems -/

/-! ### Storage-key discrimination

The three key shapes end in `.md`, `/metadata.json` and `/user.json`
respectively, so keys of different shapes are never equal, whatever the
(namespace, name, version) strings are.  This is what makes version
blobs immune to metadata/profile writes. -/
theorem suffix_discrim (p q x y : List Char) (i : Nat)
    (hx : i < x.length) (hy : i < y.length)
    (hne : x.reverse[i]? ≠ y.reverse[i]?) : p ++ x ≠ q ++ y := by
  intro h
  apply hne
  have h2 := congrArg List.reverse h
  rw [List.reverse_append, List.reverse_append] at h2
  calc x.reverse[i]? = (x.reverse ++ p.reverse)[i]? := by
        rw [List.getElem?_append]
        simp [hx]
    _ = (y.reverse ++ q.reverse)[i]? := by rw [h2]
    _ = y.reverse[i]? := by
        rw [List.getElem?_append]
        simp [hy]

theorem str_suffix_discrim (a b : String) (x y : List Char) (i : Nat)
    (hx : i < x.length) (hy : i < y.length)
    (hne : x.reverse[i]? ≠ y.reverse[i]?) :
    a ++ String.mk x ≠ b ++ String.mk y := by
  intro h
  have hd := congrArg String.data h
  rw [String.data_append, String.data_append] at hd
  exact suffix_discrim a.data b.data x y i hx hy hne hd

theorem version_key_ne_metadata_key (a b c d e : String) :
    Keys.version a b c ≠ Keys.metadata d e :=
  str_suffix_discrim _ _ ".md".data "/metadata.json".data 0
    (by decide) (by decide) (by decide)

theorem version_key_ne_profile_key (a b c d : String) :
    Keys.version a b c ≠ Keys.userProfile d :=
  str_suffix_discrim _ _ ".md".data "/user.json".data 0
    (by decide) (by decide) (by decide)

theorem profile_key_ne_metadata_key (a d e : String) :
    Keys.userProfile a ≠ Keys.metadata d e :=
  str_suffix_discrim _ _ "/user.json".data "/metadata.json".data 5
    (by decide) (by decide) (by decide)

/-! ### Order theory for `resolveLatestVersion` -/
theorem triLt_irrefl (a : Nat × Nat × Nat) : ¬ TriLt a a := by
  obtain ⟨a1, a2, a3⟩ := a
  simp only [TriLt]
  omega

theorem triLt_trans {a b c : Nat × Nat × Nat} (h1 : TriLt a b) (h2 : TriLt b c) :
    TriLt a c := by
  obtain ⟨a1, a2, a3⟩ := a
  obtain ⟨b1, b2, b3⟩ := b
  obtain ⟨c1, c2, c3⟩ := c
  simp only [TriLt] at *
  omega

theorem triLt_connex {a b : Nat × Nat × Nat} (h : ¬ TriLt a b) :
    TriLt b a ∨ b = a := by
  obtain ⟨a1, a2, a3⟩ := a
  obtain ⟨b1, b2, b3⟩ := b
  simp only [TriLt, Prod.mk.injEq] at *
  omega

theorem floLt_irrefl (a : Option Nat) : ¬ FloLt a a := by
  cases a <;> simp [FloLt]

theorem floLt_trans {a b c : Option Nat} (h1 : FloLt a b) (h2 : FloLt b c) :
    FloLt a c := by
  cases a <;> cases b <;> cases c <;> simp_all [FloLt] <;> omega

theorem floLt_connex {a b : Option Nat} (h : ¬ FloLt a b) :
    FloLt b a ∨ b = a := by
  cases a <;> cases b <;> simp_all [FloLt] <;> omega

theorem triLtF_irrefl (a : (Option Nat) × (Option Nat) × (Option Nat)) :
    ¬ TriLtF a a := by
  unfold TriLtF
  intro h
  rcases h with h | ⟨_, h | ⟨_, h⟩⟩ <;> exact floLt_irrefl _ h

theorem triLtF_trans {a b c : (Option Nat) × (Option Nat) × (Option Nat)}
    (h1 : TriLtF a b) (h2 : TriLtF b c) : TriLtF a c := by
  unfold TriLtF at *
  rcases h1 with h1 | ⟨e1, h1⟩
  · rcases h2 with h2 | ⟨e2, h2⟩
    · exact Or.inl (floLt_trans h1 h2)
    · rw [e2] at h1
      exact Or.inl h1
  · rcases h2 with h2 | ⟨e2, h2⟩
    · rw [e1]
      exact Or.inl h2
    · refine Or.inr ⟨e1.trans e2, ?_⟩
      rcases h1 with h1 | ⟨f1, h1⟩
      · rcases h2 with h2 | ⟨f2, h2⟩
        · exact Or.inl (floLt_trans h1 h2)
        · rw [f2] at h1
          exact Or.inl h1
      · rcases h2 with h2 | ⟨f2, h2⟩
        · rw [f1]
          exact Or.inl h2
        · exact Or.inr ⟨f1.trans f2, floLt_trans h1 h2⟩

theorem triLtF_connex {a b : (Option Nat) × (Option Nat) × (Option Nat)}
    (h : ¬ TriLtF a b) : TriLtF b a ∨ b = a := by
  unfold TriLtF at *
  by_cases h1 : FloLt a.1 b.1
  · exact absurd (Or.inl h1) h
  · rcases floLt_connex h1 with h1' | h1'
    · exact Or.inl (Or.inl h1')
    · by_cases h2 : FloLt a.2.1 b.2.1
      · exact absurd (Or.inr ⟨h1'.symm, Or.inl h2⟩) h
      · rcases floLt_connex h2 with h2' | h2'
        · exact Or.inl (Or.inr ⟨h1', Or.inl h2'⟩)
        · by_cases h3 : FloLt a.2.2 b.2.2
          · exact absurd (Or.inr ⟨h1'.symm, Or.inr ⟨h2'.symm, h3⟩⟩) h
          · rcases floLt_connex h3 with h3' | h3'
            · exact Or.inl (Or.inr ⟨h1', Or.inr ⟨h2', h3'⟩⟩)
            · refine Or.inr ?_
              obtain ⟨a1, a2, a3⟩ := a
              obtain ⟨b1, b2, b3⟩ := b
              simp only [Prod.mk.injEq]
              exact ⟨h1', h2', h3'⟩

theorem pickLatest_mem (v : String) (rest : List String) :
    pickLatest v rest ∈ v :: rest := by
  induction rest generalizing v with
  | nil => simp [pickLatest]
  | cons x rest ih =>
    have step : pickLatest v (x :: rest) =
        pickLatest (if TriLtF (semverKeyF v) (semverKeyF x) then x else v) rest := rfl
    rw [step]
    have h := ih (if TriLtF (semverKeyF v) (semverKeyF x) then x else v)
    rcases List.mem_cons.mp h with h | h
    · rw [h]
      split <;> simp
    · simp [h]

theorem pickLatest_ge (v : String) (rest : List String) :
    ∀ x ∈ v :: rest, ¬ TriLtF (semverKeyF (pickLatest v rest)) (semverKeyF x) := by
  induction rest generalizing v with
  | nil =>
    intro x hx
    rcases List.mem_cons.mp hx with h | h
    · rw [h]
      simp only [pickLatest, List.foldl_nil]
      exact triLtF_irrefl _
    · simp at h
  | cons y rest ih =>
    intro x hx
    by_cases hvy : TriLtF (semverKeyF v) (semverKeyF y)
    · have step : pickLatest v (y :: rest) = pickLatest y rest := by
        simp only [pickLatest, List.foldl_cons, if_pos hvy]
      rw [step]
      rcases List.mem_cons.mp hx with h | h
      · rw [h]
        intro hlt
        exact ih y y (List.mem_cons_self y rest) (triLtF_trans hlt hvy)
      · rcases List.mem_cons.mp h with h | h
        · rw [h]
          exact ih y y (List.mem_cons_self y rest)
        · exact ih y x (List.mem_cons_of_mem y h)
    · have step : pickLatest v (y :: rest) = pickLatest v rest := by
        simp only [pickLatest, List.foldl_cons, if_neg hvy]
      rw [step]
      rcases List.mem_cons.mp hx with h | h
      · rw [h]
        exact ih v v (List.mem_cons_self v rest)
      · rcases List.mem_cons.mp h with h | h
        · rw [h]
          intro hlt
          rcases triLtF_connex hvy with hyv | hyv
          · exact ih v v (List.mem_cons_self v rest) (triLtF_trans hlt hyv)
          · rw [hyv] at hlt
            exact ih v v (List.mem_cons_self v rest) hlt
        · exact ih v x (List.mem_cons_of_mem v h)

theorem resolveLatestVersion_eq (versions : List String) (hne : versions ≠ []) :
    resolveLatestVersion versions =
      (match (if (versions.filter fun v => !(v.data.contains '-')).length > 0 then
          versions.filter fun v => !(v.data.contains '-') else versions) with
        | [] => none
        | v :: rest => some (pickLatest v rest)) := by
  unfold resolveLatestVersion
  rw [if_neg (by simpa using hne)]

theorem resolveLatestVersion_mem (versions : List String) (hne : versions ≠ []) :
    ∃ v ∈ versions, resolveLatestVersion versions = some v := by
  rw [resolveLatestVersion_eq versions hne]
  by_cases hlen : (versions.filter fun v => !(v.data.contains '-')).length > 0
  · rw [if_pos hlen]
    obtain ⟨v, rest, hsv⟩ :=
      List.exists_cons_of_ne_nil (List.length_pos.mp hlen)
    rw [hsv]
    refine ⟨pickLatest v rest, ?_, rfl⟩
    have hmem : pickLatest v rest ∈ v :: rest := pickLatest_mem v rest
    have hmem2 : pickLatest v rest ∈ versions.filter fun v => !(v.data.contains '-') := by
      rw [hsv]
      exact hmem
    exact List.mem_of_mem_filter hmem2
  · rw [if_neg hlen]
    obtain ⟨v, rest, hv⟩ := List.exists_cons_of_ne_nil hne
    rw [hv]
    refine ⟨pickLatest v rest, ?_, rfl⟩
    exact pickLatest_mem v rest

theorem resolveLatestVersion_stable (versions : List String)
    (s : String) (hs : s ∈ versions) (hstable : stableVer s = true) :
    ∃ m, resolveLatestVersion versions = some m ∧ m ∈ versions ∧
      stableVer m = true ∧
      ∀ v ∈ versions, stableVer v = true →
        TriLtF (semverKeyF v) (semverKeyF m) ∨ semverKeyF v = semverKeyF m := by
  have hne : versions ≠ [] := by
    intro h
    rw [h] at hs
    simp at hs
  have hsf : s ∈ versions.filter fun v => !(v.data.contains '-') := by
    rw [List.mem_filter]
    exact ⟨hs, hstable⟩
  have hlen : (versions.filter fun v => !(v.data.contains '-')).length > 0 :=
    List.length_pos.mpr (List.ne_nil_of_mem hsf)
  rw [resolveLatestVersion_eq versions hne, if_pos hlen]
  obtain ⟨v, rest, hsv⟩ := List.exists_cons_of_ne_nil (List.length_pos.mp hlen)
  rw [hsv]
  refine ⟨pickLatest v rest, rfl, ?_, ?_, ?_⟩
  · have hmem : pickLatest v rest ∈ versions.filter fun v => !(v.data.contains '-') := by
      rw [hsv]
      exact pickLatest_mem v rest
    exact List.mem_of_mem_filter hmem
  · have hmem : pickLatest v rest ∈ versions.filter fun v => !(v.data.contains '-') := by
      rw [hsv]
      exact pickLatest_mem v rest
    exact (List.mem_filter.mp hmem).2
  · intro w hw hwstable
    have hwf : w ∈ v :: rest := by
      rw [← hsv]
      rw [List.mem_filter]
      exact ⟨hw, hwstable⟩
    have := pickLatest_ge v rest w hwf
    rcases triLtF_connex this with h | h
    · exact Or.inl h
    · exact Or.inr h

theorem jsFloat_small (n : Nat) (h : n < 9007199254740992) : jsFloat n = some n := by
  have hr : roundFloat n = n := by
    unfold roundFloat
    rw [if_pos h]
  unfold jsFloat
  rw [hr]
  rw [if_neg (by omega)]

theorem semverKeyF_small (v : String) (h : smallSemver v = true) :
    semverKeyF v =
      (some (semverKey v).1, some (semverKey v).2.1, some (semverKey v).2.2) := by
  unfold smallSemver at h
  simp only [Bool.and_eq_true, decide_eq_true_eq] at h
  unfold semverKeyF
  rw [jsFloat_small _ h.1.1, jsFloat_small _ h.1.2, jsFloat_small _ h.2]

/-- Below `2^53` the binary64 comparator order coincides with the exact
numeric order. -/
theorem triLtF_iff_small (v w : String) (hv : smallSemver v = true)
    (hw : smallSemver w = true) :
    TriLtF (semverKeyF v) (semverKeyF w) ↔ TriLt (semverKey v) (semverKey w) := by
  rw [semverKeyF_small v hv, semverKeyF_small w hw]
  unfold TriLtF TriLt FloLt
  simp

theorem semverKeyF_eq_small (v w : String) (hv : smallSemver v = true)
    (hw : smallSemver w = true) (h : semverKeyF v = semverKeyF w) :
    semverKey v = semverKey w := by
  rw [semverKeyF_small v hv, semverKeyF_small w hw] at h
  simp only [Prod.mk.injEq, Option.some.injEq] at h
  obtain ⟨h1, h2, h3⟩ := h
  have hv2 : semverKey v = ((semverKey v).1, (semverKey v).2.1, (semverKey v).2.2) := rfl
  rw [hv2, h1, h2, h3]

/-- Exact-order maximality whenever every component of every version in
the set is below `2^53`. -/
theorem resolveLatestVersion_stable_small (versions : List String)
    (s : String) (hs : s ∈ versions) (hstable : stableVer s = true)
    (hsmall : ∀ v ∈ versions, smallSemver v = true) :
    ∃ m, resolveLatestVersion versions = some m ∧ m ∈ versions ∧
      stableVer m = true ∧
      ∀ v ∈ versions, stableVer v = true →
        TriLt (semverKey v) (semverKey m) ∨ semverKey v = semverKey m := by
  obtain ⟨m, hres, hmem, hstm, hmax⟩ := resolveLatestVersion_stable versions s hs hstable
  refine ⟨m, hres, hmem, hstm, ?_⟩
  intro w hw hwst
  rcases hmax w hw hwst with h | h
  · exact Or.inl ((triLtF_iff_small w m (hsmall w hw) (hsmall m hmem)).mp h)
  · exact Or.inr (semverKeyF_eq_small w m (hsmall w hw) (hsmall m hmem) h)

/-- Counterexample to claim C3 as stated: `9007199254740992.0.0` and
`9007199254740993.0.0` are both valid stable semver, but
`Number("9007199254740993")` rounds to `9007199254740992` (`2^53`), so
the comparator ties and the stable sort keeps insertion order: the code
resolves `latest` to `9007199254740992.0.0` even though
`9007199254740993.0.0` is strictly greater under exact
MAJOR.MINOR.PATCH numeric comparison. -/
theorem latest_prefers_stable_counterexample :
    stableVer "9007199254740992.0.0" = true ∧
    stableVer "9007199254740993.0.0" = true ∧
    semverOk "9007199254740992.0.0" = true ∧
    semverOk "9007199254740993.0.0" = true ∧
    resolveLatestVersion ["9007199254740992.0.0", "9007199254740993.0.0"] =
      some "9007199254740992.0.0" ∧
    TriLt (semverKey "9007199254740992.0.0") (semverKey "9007199254740993.0.0") := by
  refine ⟨by decide, by decide, by decide, by decide, by decide, by decide⟩

/-- Claim C3 (amended): if the version set contains a stable version,
the algorithm returns a stable member of the set maximal under the
binary64 (`Number`) ordering of the MAJOR.MINOR.PATCH triples; whenever
every component of every version is below `2^53` this is exactly the
maximal stable version by numeric comparison; and publishing `1.0.0`,
`1.1.0`, `2.0.0-beta.1` in any of the six orders leaves
`metadata.latest = 1.1.0`. -/
theorem latest_prefers_stable_amended :
    (∀ (versions : List String) (s : String), s ∈ versions → stableVer s = true →
      ∃ m, resolveLatestVersion versions = some m ∧ m ∈ versions ∧
        stableVer m = true ∧
        ∀ v ∈ versions, stableVer v = true →
          TriLtF (semverKeyF v) (semverKeyF m) ∨ semverKeyF v = semverKeyF m) ∧
    (∀ (versions : List String) (s : String), s ∈ versions → stableVer s = true →
      (∀ v ∈ versions, smallSemver v = true) →
      ∃ m, resolveLatestVersion versions = some m ∧ m ∈ versions ∧
        stableVer m = true ∧
        ∀ v ∈ versions, stableVer v = true →
          TriLt (semverKey v) (semverKey m) ∨ semverKey v = semverKey m) ∧
    storedLatest (pub3 "1.0.0" "1.1.0" "2.0.0-beta.1") "acme" "x" = some "1.1.0" ∧
    storedLatest (pub3 "1.0.0" "2.0.0-beta.1" "1.1.0") "acme" "x" = some "1.1.0" ∧
    storedLatest (pub3 "1.1.0" "1.0.0" "2.0.0-beta.1") "acme" "x" = some "1.1.0" ∧
    storedLatest (pub3 "1.1.0" "2.0.0-beta.1" "1.0.0") "acme" "x" = some "1.1.0" ∧
    storedLatest (pub3 "2.0.0-beta.1" "1.0.0" "1.1.0") "acme" "x" = some "1.1.0" ∧
    storedLatest (pub3 "2.0.0-beta.1" "1.1.0" "1.0.0") "acme" "x" = some "1.1.0" := by
  refine ⟨resolveLatestVersion_stable, resolveLatestVersion_stable_small,
    ?_, ?_, ?_, ?_, ?_, ?_⟩ <;> decide

/-- Witness for the amended C3: the exact-maximality conjunct applied to
a concrete version set with small components and a stable member. -/
theorem latest_prefers_stable_amended_witness :
    ∃ m, resolveLatestVersion ["2.0.0-beta.1", "1.0.0", "1.1.0"] = some m ∧
      m ∈ ["2.0.0-beta.1", "1.0.0", "1.1.0"] ∧ stableVer m = true ∧
      ∀ v ∈ ["2.0.0-beta.1", "1.0.0", "1.1.0"], stableVer v = true →
        TriLt (semverKey v) (semverKey m) ∨ semverKey v = semverKey m :=
  latest_prefers_stable_amended.2.1 ["2.0.0-beta.1", "1.0.0", "1.1.0"] "1.0.0"
    (by decide) (by decide) (by decide)

/-- Claim C4: a non-empty version set with no stable version still
resolves to some member of the set (never `null`); publishing only
`1.0.0-alpha.1` and `1.0.0-beta.1` (in either order) leaves `latest`
equal to one of the two. -/
theorem latest_fallback_never_null :
    (∀ versions : List String, versions ≠ [] →
      (∀ v ∈ versions, stableVer v = false) →
      ∃ v ∈ versions, resolveLatestVersion versions = some v) ∧
    (∃ l, storedLatest (pub2 "1.0.0-alpha.1" "1.0.0-beta.1") "acme" "x" = some l ∧
      (l = "1.0.0-alpha.1" ∨ l = "1.0.0-beta.1")) ∧
    (∃ l, storedLatest (pub2 "1.0.0-beta.1" "1.0.0-alpha.1") "acme" "x" = some l ∧
      (l = "1.0.0-alpha.1" ∨ l = "1.0.0-beta.1")) := by
  refine ⟨fun versions hne _ => resolveLatestVersion_mem versions hne, ?_, ?_⟩
  · exact ⟨"1.0.0-alpha.1", by decide, Or.inl rfl⟩
  · exact ⟨"1.0.0-beta.1", by decide, Or.inr rfl⟩

/-- Witness for C4: the general conjunct applied to a concrete
pre-release-only version set. -/
theorem latest_fallback_never_null_witness :
    ∃ v ∈ ["1.0.0-alpha.1", "1.0.0-beta.1"],
      resolveLatestVersion ["1.0.0-alpha.1", "1.0.0-beta.1"] = some v :=
  latest_fallback_never_null.1 ["1.0.0-alpha.1", "1.0.0-beta.1"]
    (by decide) (by decide)

/-- Claim C2: when the caller's identity namespace differs from the
target namespace, `publishSkill` and `updateProfile` fail `Forbidden`
and return the state unchanged (no store write, no id consumed). -/
theorem forbidden_no_mutation (ctx : Ctx) (st : St) :
    (∀ input : PublishSkillInput, input.identity.ns ≠ input.ns →
      publishSkill ctx input st =
        (Except.error (Errors.forbidden ("Cannot publish to namespace @" ++ input.ns)),
          st)) ∧
    (∀ input : UpdateProfileInput, input.identity.ns ≠ input.ns →
      updateProfile ctx input st =
        (Except.error (Errors.forbidden ("Cannot update profile for @" ++ input.ns)),
          st)) := by
  constructor
  · intro input h
    unfold publishSkill
    rw [if_pos h]
  · intro input h
    unfold updateProfile
    rw [if_pos h]

/-- Witness for C2 at a concrete mismatched identity. -/
theorem forbidden_no_mutation_witness :
    publishSkill cCtx
        { ns := "acme", name := "x", version := "1.0.0", content := contentX,
          identity := { ns := "evil" } } emptySt =
      (Except.error (Errors.forbidden ("Cannot publish to namespace @" ++ "acme")),
        emptySt) ∧
    updateProfile cCtx
        { ns := "acme", profile := {}, identity := { ns := "evil" } } emptySt =
      (Except.error (Errors.forbidden ("Cannot update profile for @" ++ "acme")),
        emptySt) :=
  ⟨(forbidden_no_mutation cCtx emptySt).1 _ (by decide),
    (forbidden_no_mutation cCtx emptySt).2 _ (by decide)⟩

/-! ### Branch equations for `publishSkill` -/
theorem publishSkill_forbidden (ctx : Ctx) (input : PublishSkillInput) (st : St)
    (h : input.identity.ns ≠ input.ns) :
    publishSkill ctx input st =
      (Except.error (Errors.forbidden ("Cannot publish to namespace @" ++ input.ns)),
        st) := by
  unfold publishSkill
  rw [if_pos h]

theorem publishSkill_oversize (ctx : Ctx) (input : PublishSkillInput) (st : St)
    (h1 : input.identity.ns = input.ns)
    (h2 : input.content.utf8ByteSize > ctx.maxSkillBytes) :
    publishSkill ctx input st =
      (Except.error (Errors.invalidInput "content"
        ("Exceeds max size of " ++ toString ctx.maxSkillBytes ++ " bytes")), st) := by
  unfold publishSkill
  rw [if_neg (not_ne_iff.mpr h1)]
  dsimp only
  rw [if_pos h2]

theorem publishSkill_fm_error (ctx : Ctx) (input : PublishSkillInput) (st : St)
    (e : FrontmatterError)
    (h1 : input.identity.ns = input.ns)
    (h2 : input.content.utf8ByteSize ≤ ctx.maxSkillBytes)
    (h3 : parseFrontmatter input.content = Except.error e) :
    publishSkill ctx input st =
      (Except.error (Errors.invalidInput "content" (fmErrorText e)), st) := by
  unfold publishSkill
  rw [if_neg (not_ne_iff.mpr h1)]
  dsimp only
  rw [if_neg (Nat.not_lt.mpr h2), h3]

theorem publishSkill_name_mismatch (ctx : Ctx) (input : PublishSkillInput) (st : St)
    (pf : ParsedFrontmatter)
    (h1 : input.identity.ns = input.ns)
    (h2 : input.content.utf8ByteSize ≤ ctx.maxSkillBytes)
    (h3 : parseFrontmatter input.content = Except.ok pf)
    (h4 : pf.frontmatter.name ≠ input.name) :
    publishSkill ctx input st =
      (Except.error (Errors.invalidInput "content"
        ("Frontmatter name \x22" ++ pf.frontmatter.name ++
          "\x22 does not match URL path \x22" ++ input.name ++ "\x22")), st) := by
  unfold publishSkill
  rw [if_neg (not_ne_iff.mpr h1)]
  dsimp only
  rw [if_neg (Nat.not_lt.mpr h2), h3]
  dsimp only
  rw [if_pos h4]

theorem publishSkill_already_exists (ctx : Ctx) (input : PublishSkillInput) (st : St)
    (pf : ParsedFrontmatter) (v : StoreVal)
    (h1 : input.identity.ns = input.ns)
    (h2 : input.content.utf8ByteSize ≤ ctx.maxSkillBytes)
    (h3 : parseFrontmatter input.content = Except.ok pf)
    (h4 : pf.frontmatter.name = input.name)
    (h5 : st.store (Keys.version input.ns input.name input.version) = some v) :
    publishSkill ctx input st =
      (Except.error (Errors.versionAlreadyExists input.ns input.name input.version),
        st) := by
  unfold publishSkill
  rw [if_neg (not_ne_iff.mpr h1)]
  dsimp only
  rw [if_neg (Nat.not_lt.mpr h2), h3]
  dsimp only
  rw [if_neg (not_ne_iff.mpr h4), h5]

/-- Writing a version blob never touches a metadata key (the suffixes
differ), so `loadMetadata` is unaffected. -/
theorem loadMetadata_put_version (store : Store) (ns name a b c : String)
    (v : StoreVal) :
    loadMetadata (store.put (Keys.version a b c) v) ns name =
      loadMetadata store ns name := by
  unfold loadMetadata Store.put
  dsimp only
  rw [if_neg (fun h => version_key_ne_metadata_key a b c ns name h.symm)]

theorem publishSkill_corrupt (ctx : Ctx) (input : PublishSkillInput) (st : St)
    (pf : ParsedFrontmatter) (e : DomainError)
    (h1 : input.identity.ns = input.ns)
    (h2 : input.content.utf8ByteSize ≤ ctx.maxSkillBytes)
    (h3 : parseFrontmatter input.content = Except.ok pf)
    (h4 : pf.frontmatter.name = input.name)
    (h5 : st.store (Keys.version input.ns input.name input.version) = none)
    (h6 : loadMetadata st.store input.ns input.name = Except.error e) :
    publishSkill ctx input st =
      (Except.error e,
        { st with
          store := st.store.put (Keys.version input.ns input.name input.version)
              (StoreVal.text input.content) }) := by
  unfold publishSkill
  rw [if_neg (not_ne_iff.mpr h1)]
  dsimp only
  rw [if_neg (Nat.not_lt.mpr h2), h3]
  dsimp only
  rw [if_neg (not_ne_iff.mpr h4), h5]
  dsimp only
  rw [loadMetadata_put_version, h6]

theorem publishSkill_create (ctx : Ctx) (input : PublishSkillInput) (st : St)
    (pf : ParsedFrontmatter)
    (h1 : input.identity.ns = input.ns)
    (h2 : input.content.utf8ByteSize ≤ ctx.maxSkillBytes)
    (h3 : parseFrontmatter input.content = Except.ok pf)
    (h4 : pf.frontmatter.name = input.name)
    (h5 : st.store (Keys.version input.ns input.name input.version) = none)
    (h6 : loadMetadata st.store input.ns input.name = Except.ok none) :
    publishSkill ctx input st =
      (let st1 : St := { st with
         store := st.store.put (Keys.version input.ns input.name input.version)
             (StoreVal.text input.content) }
       let pr := getOrCreateNamespaceId ctx input.ns st1
       let metadata : SkillMetadata :=
         { id := ctx.gen pr.2.ctr, namespaceId := pr.1,
           ns := input.ns, name := input.name,
           created := ctx.now, updated := ctx.now,
           versions := [(input.version,
             { published := ctx.now, size := input.content.utf8ByteSize,
               checksum := ctx.checksum input.content })],
           latest := some input.version }
       let result : PublishSkillResult :=
         { ns := input.ns, name := input.name, version := input.version,
           size := input.content.utf8ByteSize,
           checksum := ctx.checksum input.content,
           frontmatter := pf.frontmatter }
       (Except.ok result,
         { store := pr.2.store.put (Keys.metadata input.ns input.name)
             (StoreVal.metaDoc metadata),
           ctr := pr.2.ctr + 1 })) := by
  unfold publishSkill
  rw [if_neg (not_ne_iff.mpr h1)]
  dsimp only
  rw [if_neg (Nat.not_lt.mpr h2), h3]
  dsimp only
  rw [if_neg (not_ne_iff.mpr h4), h5]
  dsimp only
  rw [loadMetadata_put_version, h6]

theorem publishSkill_update (ctx : Ctx) (input : PublishSkillInput) (st : St)
    (pf : ParsedFrontmatter) (old : SkillMetadata)
    (h1 : input.identity.ns = input.ns)
    (h2 : input.content.utf8ByteSize ≤ ctx.maxSkillBytes)
    (h3 : parseFrontmatter input.content = Except.ok pf)
    (h4 : pf.frontmatter.name = input.name)
    (h5 : st.store (Keys.version input.ns input.name input.version) = none)
    (h6 : loadMetadata st.store input.ns input.name = Except.ok (some old)) :
    publishSkill ctx input st =
      (let metadata : SkillMetadata :=
         { old with
           updated := ctx.now,
           versions := setKey old.versions input.version
             { published := ctx.now, size := input.content.utf8ByteSize,
               checksum := ctx.checksum input.content },
           latest := resolveLatestVersion
             (old.versions.map Prod.fst ++ [input.version]) }
       let result : PublishSkillResult :=
         { ns := input.ns, name := input.name, version := input.version,
           size := input.content.utf8ByteSize,
           checksum := ctx.checksum input.content,
           frontmatter := pf.frontmatter }
       (Except.ok result,
         { st with
           store := (st.store.put (Keys.version input.ns input.name input.version)
               (StoreVal.text input.content)).put
               (Keys.metadata old.ns old.name) (StoreVal.metaDoc metadata) })) := by
  unfold publishSkill
  rw [if_neg (not_ne_iff.mpr h1)]
  dsimp only
  rw [if_neg (Nat.not_lt.mpr h2), h3]
  dsimp only
  rw [if_neg (not_ne_iff.mpr h4), h5]
  dsimp only
  rw [loadMetadata_put_version, h6]

/-- A `loadMetadata` failure is always `CorruptStorageData`. -/
theorem loadMetadata_error_code (store : Store) (ns name : String) (e : DomainError)
    (h : loadMetadata store ns name = Except.error e) :
    e.code = ErrorCode.CORRUPT_STORAGE_DATA := by
  unfold loadMetadata at h
  dsimp only at h
  cases hk : store (Keys.metadata ns name) with
  | none => rw [hk] at h; exact absurd h (by simp)
  | some v =>
    rw [hk] at h
    dsimp only at h
    by_cases hj : jsonParses v = true
    · rw [if_pos hj] at h
      cases hd : decodeMetaVal v with
      | none =>
        rw [hd] at h
        cases h
        rfl
      | some m => rw [hd] at h; exact absurd h (by simp)
    · rw [if_neg hj] at h
      cases h
      rfl

/-- Claim C7: `publishSkill` evaluates its preconditions in the fixed
order authorization, size (UTF-8 byte length against the configured
ceiling, 262144 by default), frontmatter validity, frontmatter/path
name equality, then version immutability; an input violating several of
them gets the error of the first violated check. -/
theorem publish_check_order (ctx : Ctx) (input : PublishSkillInput) (st : St) :
    defaultMaxSkillBytes = 262144 ∧
    (input.identity.ns ≠ input.ns →
      (publishSkill ctx input st).1 =
        Except.error (Errors.forbidden ("Cannot publish to namespace @" ++ input.ns))) ∧
    (input.identity.ns = input.ns →
      input.content.utf8ByteSize > ctx.maxSkillBytes →
      (publishSkill ctx input st).1 =
        Except.error (Errors.invalidInput "content"
          ("Exceeds max size of " ++ toString ctx.maxSkillBytes ++ " bytes"))) ∧
    (∀ e : FrontmatterError, input.identity.ns = input.ns →
      input.content.utf8ByteSize ≤ ctx.maxSkillBytes →
      parseFrontmatter input.content = Except.error e →
      (publishSkill ctx input st).1 =
        Except.error (Errors.invalidInput "content" (fmErrorText e))) ∧
    (∀ pf : ParsedFrontmatter, input.identity.ns = input.ns →
      input.content.utf8ByteSize ≤ ctx.maxSkillBytes →
      parseFrontmatter input.content = Except.ok pf →
      pf.frontmatter.name ≠ input.name →
      (publishSkill ctx input st).1 =
        Except.error (Errors.invalidInput "content"
          ("Frontmatter name \x22" ++ pf.frontmatter.name ++
            "\x22 does not match URL path \x22" ++ input.name ++ "\x22"))) ∧
    (∀ (pf : ParsedFrontmatter) (v : StoreVal), input.identity.ns = input.ns →
      input.content.utf8ByteSize ≤ ctx.maxSkillBytes →
      parseFrontmatter input.content = Except.ok pf →
      pf.frontmatter.name = input.name →
      st.store (Keys.version input.ns input.name input.version) = some v →
      (publishSkill ctx input st).1 =
        Except.error (Errors.versionAlreadyExists input.ns input.name input.version)) := by
  refine ⟨rfl, ?_, ?_, ?_, ?_, ?_⟩
  · intro h
    exact congrArg Prod.fst (publishSkill_forbidden ctx input st h)
  · intro h1 h2
    exact congrArg Prod.fst (publishSkill_oversize ctx input st h1 h2)
  · intro e h1 h2 h3
    exact congrArg Prod.fst (publishSkill_fm_error ctx input st e h1 h2 h3)
  · intro pf h1 h2 h3 h4
    exact congrArg Prod.fst (publishSkill_name_mismatch ctx input st pf h1 h2 h3 h4)
  · intro pf v h1 h2 h3 h4 h5
    exact congrArg Prod.fst (publishSkill_already_exists ctx input st pf v h1 h2 h3 h4 h5)

/-- Witness for C7: each precondition conjunct at a concrete input; in
particular an oversized content with a mismatched identity fails
`Forbidden`, not `InvalidInput`. -/
theorem publish_check_order_witness :
    (publishSkill smallCtx
        { ns := "acme", name := "x", version := "1.0.0", content := contentX,
          identity := { ns := "evil" } } emptySt).1 =
      Except.error (Errors.forbidden ("Cannot publish to namespace @" ++ "acme")) ∧
    (publishSkill smallCtx (inputX "1.0.0") emptySt).1 =
      Except.error (Errors.invalidInput "content"
        ("Exceeds max size of " ++ toString smallCtx.maxSkillBytes ++ " bytes")) ∧
    (publishSkill cCtx
        { ns := "acme", name := "x", version := "1.0.0",
          content := "# No frontmatter here", identity := { ns := "acme" } } emptySt).1 =
      Except.error (Errors.invalidInput "content"
        (fmErrorText ⟨FrontmatterErrorCode.MISSING_FRONTMATTER,
          "Content must start with YAML frontmatter (---)", none⟩)) ∧
    (publishSkill cCtx
        { ns := "acme", name := "y", version := "1.0.0", content := contentX,
          identity := { ns := "acme" } } emptySt).1 =
      Except.error (Errors.invalidInput "content"
        ("Frontmatter name \x22" ++ "x" ++
          "\x22 does not match URL path \x22" ++ "y" ++ "\x22")) ∧
    (publishSkill cCtx (inputX "1.0.0") (pubX "1.0.0" emptySt)).1 =
      Except.error (Errors.versionAlreadyExists "acme" "x" "1.0.0") :=
  ⟨(publish_check_order smallCtx _ emptySt).2.1 (by decide),
    (publish_check_order smallCtx _ emptySt).2.2.1 (by decide) (by decide),
    (publish_check_order cCtx _ emptySt).2.2.2.1 _ (by decide) (by decide) (by decide),
    (publish_check_order cCtx _ emptySt).2.2.2.2.1
      ⟨⟨"x", "d", none, none, none⟩, "body"⟩ (by decide) (by decide) (by decide) (by decide),
    (publish_check_order cCtx _ (pubX "1.0.0" emptySt)).2.2.2.2.2
      ⟨⟨"x", "d", none, none, none⟩, "body"⟩ (StoreVal.text contentX)
      (by decide) (by decide) (by decide) (by decide) (by decide)⟩

/-- Claim C9: `publishSkill` is not atomic across the version write and
the metadata update.  Whenever it fails, a `Forbidden`, `InvalidInput`
or `VersionAlreadyExists` failure leaves the state untouched, while a
`CorruptStorageData` failure (undecodable existing metadata, detected
only after the atomic version write) happens with the version blob
absent before the call and still stored after it. -/
theorem publish_nonatomic (ctx : Ctx) (input : PublishSkillInput) (st : St)
    (e : DomainError) (h : (publishSkill ctx input st).1 = Except.error e) :
    ((e.code = ErrorCode.FORBIDDEN ∨ e.code = ErrorCode.INVALID_INPUT ∨
        e.code = ErrorCode.VERSION_ALREADY_EXISTS) →
      (publishSkill ctx input st).2 = st) ∧
    (e.code = ErrorCode.CORRUPT_STORAGE_DATA →
      st.store (Keys.version input.ns input.name input.version) = none ∧
      (publishSkill ctx input st).2.store =
        st.store.put (Keys.version input.ns input.name input.version)
          (StoreVal.text input.content) ∧
      (publishSkill ctx input st).2.store
          (Keys.version input.ns input.name input.version) =
        some (StoreVal.text input.content)) := by
  by_cases h1 : input.identity.ns = input.ns
  case neg =>
    have heq := publishSkill_forbidden ctx input st h1
    rw [heq] at h ⊢
    dsimp only at h ⊢
    injection h with he
    refine ⟨fun _ => rfl, fun hc => ?_⟩
    rw [← he] at hc
    exact absurd hc (by simp [Errors.forbidden])
  case pos =>
  by_cases h2 : input.content.utf8ByteSize > ctx.maxSkillBytes
  case pos =>
    have heq := publishSkill_oversize ctx input st h1 h2
    rw [heq] at h ⊢
    dsimp only at h ⊢
    injection h with he
    refine ⟨fun _ => rfl, fun hc => ?_⟩
    rw [← he] at hc
    exact absurd hc (by simp [Errors.invalidInput])
  case neg =>
  have h2' : input.content.utf8ByteSize ≤ ctx.maxSkillBytes := Nat.not_lt.mp h2
  cases hpf : parseFrontmatter input.content with
  | error fe =>
    have heq := publishSkill_fm_error ctx input st fe h1 h2' hpf
    rw [heq] at h ⊢
    dsimp only at h ⊢
    injection h with he
    refine ⟨fun _ => rfl, fun hc => ?_⟩
    rw [← he] at hc
    exact absurd hc (by simp [Errors.invalidInput])
  | ok pf =>
    by_cases h4 : pf.frontmatter.name = input.name
    case neg =>
      have heq := publishSkill_name_mismatch ctx input st pf h1 h2' hpf h4
      rw [heq] at h ⊢
      dsimp only at h ⊢
      injection h with he
      refine ⟨fun _ => rfl, fun hc => ?_⟩
      rw [← he] at hc
      exact absurd hc (by simp [Errors.invalidInput])
    case pos =>
    cases hvk : st.store (Keys.version input.ns input.name input.version) with
    | some v =>
      have heq := publishSkill_already_exists ctx input st pf v h1 h2' hpf h4 hvk
      rw [heq] at h ⊢
      dsimp only at h ⊢
      injection h with he
      refine ⟨fun _ => rfl, fun hc => ?_⟩
      rw [← he] at hc
      exact absurd hc (by simp [Errors.versionAlreadyExists])
    | none =>
      cases hlm : loadMetadata st.store input.ns input.name with
      | error e2 =>
        have heq := publishSkill_corrupt ctx input st pf e2 h1 h2' hpf h4 hvk hlm
        have hcode := loadMetadata_error_code st.store input.ns input.name e2 hlm
        rw [heq] at h ⊢
        dsimp only at h ⊢
        injection h with he
        constructor
        · intro hc
          exfalso
          rw [← he] at hc
          rw [hcode] at hc
          rcases hc with hc | hc | hc <;> exact absurd hc (by decide)
        · intro _
          exact ⟨rfl, rfl, by simp [Store.put]⟩
      | ok metaOpt =>
        cases metaOpt with
        | none =>
          have heq := publishSkill_create ctx input st pf h1 h2' hpf h4 hvk hlm
          rw [heq] at h
          dsimp only at h
          exact absurd h (by simp)
        | some old =>
          have heq := publishSkill_update ctx input st pf old h1 h2' hpf h4 hvk hlm
          rw [heq] at h
          dsimp only at h
          exact absurd h (by simp)

/-- Witness for C9: publishing over corrupt metadata reports a failure
yet leaves the freshly written immutable version blob in the store. -/
theorem publish_nonatomic_witness :
    corruptMetaSt.store (Keys.version "acme" "x" "1.0.0") = none ∧
    (publishSkill cCtx (inputX "1.0.0") corruptMetaSt).2.store =
      corruptMetaSt.store.put (Keys.version "acme" "x" "1.0.0")
        (StoreVal.text contentX) ∧
    (publishSkill cCtx (inputX "1.0.0") corruptMetaSt).2.store
        (Keys.version "acme" "x" "1.0.0") =
      some (StoreVal.text contentX) :=
  (publish_nonatomic cCtx (inputX "1.0.0") corruptMetaSt
      (Errors.corruptStorageData (Keys.metadata "acme" "x") "invalid JSON")
      (by decide)).2 (by decide)

theorem loadMetadata_none (store : Store) (ns name : String)
    (h : store (Keys.metadata ns name) = none) :
    loadMetadata store ns name = Except.ok none := by
  unfold loadMetadata
  dsimp only
  rw [h]

theorem loadMetadata_metaDoc (store : Store) (ns name : String) (m : SkillMetadata)
    (h : store (Keys.metadata ns name) = some (StoreVal.metaDoc m))
    (hv : validMetadata m = true) :
    loadMetadata store ns name = Except.ok (some m) := by
  unfold loadMetadata
  dsimp only
  rw [h]
  dsimp only [jsonParses, decodeMetaVal]
  rw [if_pos rfl, if_pos hv]

/-- Claim C8: `getSkillLatest` reports `NotFound` when the metadata
document is absent, `NotFound` when metadata exists with `latest` null,
and `CorruptStorageData` (not `NotFound`) when `latest` names a version
whose content blob is missing. -/
theorem getSkillLatest_errors (ns name : String) (st : St) :
    (st.store (Keys.metadata ns name) = none →
      getSkillLatest ns name st =
        Except.error (Errors.notFound ("@" ++ ns ++ "/" ++ name))) ∧
    (∀ m : SkillMetadata,
      st.store (Keys.metadata ns name) = some (StoreVal.metaDoc m) →
      validMetadata m = true → m.latest = none →
      getSkillLatest ns name st =
        Except.error (Errors.notFound ("@" ++ ns ++ "/" ++ name ++ " has no versions"))) ∧
    (∀ (m : SkillMetadata) (l : String),
      st.store (Keys.metadata ns name) = some (StoreVal.metaDoc m) →
      validMetadata m = true → m.latest = some l →
      st.store (Keys.version ns name l) = none →
      getSkillLatest ns name st =
        Except.error (Errors.corruptStorageData (Keys.metadata ns name)
          ("Latest version " ++ l ++ " not found in storage"))) := by
  refine ⟨?_, ?_, ?_⟩
  · intro h
    unfold getSkillLatest
    rw [loadMetadata_none st.store ns name h]
  · intro m h hv hl
    unfold getSkillLatest
    rw [loadMetadata_metaDoc st.store ns name m h hv]
    dsimp only
    rw [hl]
  · intro m l h hv hl hb
    unfold getSkillLatest
    rw [loadMetadata_metaDoc st.store ns name m h hv]
    dsimp only
    rw [hl]
    dsimp only
    rw [hb]

/-- Witness for C8: the three error cases at concrete states. -/
theorem getSkillLatest_errors_witness :
    getSkillLatest "acme" "x" emptySt =
      Except.error (Errors.notFound ("@" ++ "acme" ++ "/" ++ "x")) ∧
    getSkillLatest "acme" "x" noLatestSt =
      Except.error (Errors.notFound ("@" ++ "acme" ++ "/" ++ "x" ++ " has no versions")) ∧
    getSkillLatest "acme" "x" danglingSt =
      Except.error (Errors.corruptStorageData (Keys.metadata "acme" "x")
        ("Latest version " ++ "1.0.0" ++ " not found in storage")) :=
  ⟨(getSkillLatest_errors "acme" "x" emptySt).1 (by decide),
    (getSkillLatest_errors "acme" "x" noLatestSt).2.1 emptyMeta
      (by decide) (by decide) (by decide),
    (getSkillLatest_errors "acme" "x" danglingSt).2.2 danglingMeta "1.0.0"
      (by decide) (by decide) (by decide) (by decide)⟩

theorem updateProfile_fresh (ctx : Ctx) (input : UpdateProfileInput) (st : St)
    (hid : input.identity.ns = input.ns)
    (hdec : (st.store (Keys.userProfile input.ns)).bind decodeProfileVal = none) :
    updateProfile ctx input st =
      (Except.ok (freshProfile ctx input st),
        { store := st.store.put (Keys.userProfile input.ns)
            (StoreVal.profileDoc (freshProfile ctx input st)),
          ctr := st.ctr + 1 }) := by
  unfold updateProfile
  rw [if_neg (not_ne_iff.mpr hid)]
  dsimp only
  rw [hdec]
  rfl

/-- Claim C10: `updateProfile` never returns `CorruptStorageData` (its
only failure is `Forbidden`); over a stored-but-undecodable profile
document it silently writes a fresh profile whose `id` is a new nanoid
and whose `created` is the current time, while `getProfile` on the very
same stored bytes reports `CorruptStorageData`. -/
theorem updateProfile_lenient (ctx : Ctx) (input : UpdateProfileInput) (st : St) :
    (∀ e : DomainError, (updateProfile ctx input st).1 = Except.error e →
      e.code = ErrorCode.FORBIDDEN) ∧
    (∀ v : StoreVal, input.identity.ns = input.ns →
      st.store (Keys.userProfile input.ns) = some v →
      decodeProfileVal v = none →
      ∃ p : UserProfile, (updateProfile ctx input st).1 = Except.ok p ∧
        p.id = ctx.gen st.ctr ∧ p.created = ctx.now ∧
        (updateProfile ctx input st).2.store (Keys.userProfile input.ns) =
          some (StoreVal.profileDoc p)) ∧
    (∀ (ns2 : String) (st2 : St) (v : StoreVal),
      st2.store (Keys.userProfile ns2) = some v →
      decodeProfileVal v = none →
      ∃ e : DomainError, getProfile ns2 st2 = Except.error e ∧
        e.code = ErrorCode.CORRUPT_STORAGE_DATA) := by
  refine ⟨?_, ?_, ?_⟩
  · intro e he
    by_cases hid : input.identity.ns ≠ input.ns
    · unfold updateProfile at he
      rw [if_pos hid] at he
      dsimp only at he
      injection he with h'
      rw [← h']
      rfl
    · unfold updateProfile at he
      rw [if_neg hid] at he
      dsimp only at he
      cases hdec : (st.store (Keys.userProfile input.ns)).bind decodeProfileVal with
      | some p => rw [hdec] at he; exact absurd he (by simp)
      | none => rw [hdec] at he; exact absurd he (by simp)
  · intro v hid hv hd
    have hdec : (st.store (Keys.userProfile input.ns)).bind decodeProfileVal = none := by
      rw [hv]
      exact hd
    have heq := updateProfile_fresh ctx input st hid hdec
    refine ⟨freshProfile ctx input st, ?_, rfl, rfl, ?_⟩
    · rw [heq]
    · rw [heq]
      simp [Store.put]
  · intro ns2 st2 v hv hd
    unfold getProfile
    dsimp only
    rw [hv]
    dsimp only
    by_cases hj : jsonParses v = true
    · rw [if_pos hj, hd]
      exact ⟨_, rfl, rfl⟩
    · rw [if_neg hj]
      exact ⟨_, rfl, rfl⟩

/-- Witness for C10: over an unparseable stored profile, `updateProfile`
succeeds with a fresh id and `created = now`, while `getProfile` on the
same state reports corruption. -/
theorem updateProfile_lenient_witness :
    (∃ p : UserProfile,
      (updateProfile cCtx updInputAcme corruptProfSt).1 = Except.ok p ∧
        p.id = cCtx.gen corruptProfSt.ctr ∧ p.created = cCtx.now ∧
        (updateProfile cCtx updInputAcme corruptProfSt).2.store
            (Keys.userProfile "acme") = some (StoreVal.profileDoc p)) ∧
    (∃ e : DomainError, getProfile "acme" corruptProfSt = Except.error e ∧
      e.code = ErrorCode.CORRUPT_STORAGE_DATA) :=
  ⟨(updateProfile_lenient cCtx updInputAcme corruptProfSt).2.1
      (StoreVal.badJson "nope") (by decide) (by decide) (by decide),
    (updateProfile_lenient cCtx updInputAcme corruptProfSt).2.2 "acme" corruptProfSt
      (StoreVal.badJson "nope") (by decide) (by decide)⟩

/-! ### Inversion lemmas for successful operations -/
theorem decodeMetaVal_some (v : StoreVal) (m : SkillMetadata)
    (h : decodeMetaVal v = some m) :
    v = StoreVal.metaDoc m ∧ validMetadata m = true := by
  cases v with
  | metaDoc m2 =>
    unfold decodeMetaVal at h
    dsimp only at h
    by_cases hv : validMetadata m2 = true
    · rw [if_pos hv] at h
      injection h with h'
      subst h'
      exact ⟨rfl, hv⟩
    · rw [if_neg hv] at h
      exact absurd h (by simp)
  | text s => exact absurd h (by simp [decodeMetaVal])
  | profileDoc p => exact absurd h (by simp [decodeMetaVal])
  | badJson s => exact absurd h (by simp [decodeMetaVal])
  | badSchema s => exact absurd h (by simp [decodeMetaVal])

theorem loadMetadata_ok_none (store : Store) (ns name : String)
    (h : loadMetadata store ns name = Except.ok none) :
    store (Keys.metadata ns name) = none := by
  unfold loadMetadata at h
  dsimp only at h
  cases hk : store (Keys.metadata ns name) with
  | none => rfl
  | some v =>
    rw [hk] at h
    dsimp only at h
    by_cases hj : jsonParses v = true
    · rw [if_pos hj] at h
      cases hd : decodeMetaVal v with
      | some m => rw [hd] at h; exact absurd h (by simp)
      | none => rw [hd] at h; exact absurd h (by simp)
    · rw [if_neg hj] at h
      exact absurd h (by simp)

theorem loadMetadata_ok_some (store : Store) (ns name : String) (old : SkillMetadata)
    (h : loadMetadata store ns name = Except.ok (some old)) :
    store (Keys.metadata ns name) = some (StoreVal.metaDoc old) ∧
      validMetadata old = true := by
  unfold loadMetadata at h
  dsimp only at h
  cases hk : store (Keys.metadata ns name) with
  | none => rw [hk] at h; exact absurd h (by simp)
  | some v =>
    rw [hk] at h
    dsimp only at h
    by_cases hj : jsonParses v = true
    · rw [if_pos hj] at h
      cases hd : decodeMetaVal v with
      | some m =>
        rw [hd] at h
        dsimp only at h
        injection h with h'
        injection h' with h''
        obtain ⟨hv, hval⟩ := decodeMetaVal_some v m hd
        rw [← h'']
        exact ⟨by rw [hv], hval⟩
      | none => rw [hd] at h; exact absurd h (by simp)
    · rw [if_neg hj] at h
      exact absurd h (by simp)

/-- Inversion of a successful `publishSkill`: every precondition held and
the metadata load did not fail. -/
theorem publishSkill_ok_inv (ctx : Ctx) (input : PublishSkillInput) (st : St)
    (r : PublishSkillResult) (h : (publishSkill ctx input st).1 = Except.ok r) :
    input.identity.ns = input.ns ∧
    input.content.utf8ByteSize ≤ ctx.maxSkillBytes ∧
    (∃ pf : ParsedFrontmatter, parseFrontmatter input.content = Except.ok pf ∧
      pf.frontmatter.name = input.name) ∧
    st.store (Keys.version input.ns input.name input.version) = none ∧
    (loadMetadata st.store input.ns input.name = Except.ok none ∨
      ∃ old : SkillMetadata,
        loadMetadata st.store input.ns input.name = Except.ok (some old)) := by
  by_cases h1 : input.identity.ns = input.ns
  case neg =>
    rw [congrArg Prod.fst (publishSkill_forbidden ctx input st h1)] at h
    exact absurd h (by simp)
  case pos =>
  by_cases h2 : input.content.utf8ByteSize > ctx.maxSkillBytes
  case pos =>
    rw [congrArg Prod.fst (publishSkill_oversize ctx input st h1 h2)] at h
    exact absurd h (by simp)
  case neg =>
  have h2' : input.content.utf8ByteSize ≤ ctx.maxSkillBytes := Nat.not_lt.mp h2
  cases hpf : parseFrontmatter input.content with
  | error fe =>
    rw [congrArg Prod.fst (publishSkill_fm_error ctx input st fe h1 h2' hpf)] at h
    exact absurd h (by simp)
  | ok pf =>
    by_cases h4 : pf.frontmatter.name = input.name
    case neg =>
      rw [congrArg Prod.fst
        (publishSkill_name_mismatch ctx input st pf h1 h2' hpf h4)] at h
      exact absurd h (by simp)
    case pos =>
    cases hvk : st.store (Keys.version input.ns input.name input.version) with
    | some v =>
      rw [congrArg Prod.fst
        (publishSkill_already_exists ctx input st pf v h1 h2' hpf h4 hvk)] at h
      exact absurd h (by simp)
    | none =>
      cases hlm : loadMetadata st.store input.ns input.name with
      | error e2 =>
        rw [congrArg Prod.fst
          (publishSkill_corrupt ctx input st pf e2 h1 h2' hpf h4 hvk hlm)] at h
        exact absurd h (by simp)
      | ok metaOpt =>
        cases metaOpt with
        | none => exact ⟨h1, h2', ⟨pf, rfl, h4⟩, rfl, Or.inl rfl⟩
        | some old => exact ⟨h1, h2', ⟨pf, rfl, h4⟩, rfl, Or.inr ⟨old, rfl⟩⟩

/-! ### `setKey` (JS object assignment) lemmas -/
theorem setKey_not_mem {α : Type} (r : List (String × α)) (k : String) (v : α)
    (h : k ∉ r.map Prod.fst) : setKey r k v = r ++ [(k, v)] := by
  unfold setKey
  rw [if_neg]
  intro hany
  obtain ⟨p, hp, hbeq⟩ := List.any_eq_true.mp hany
  exact h (List.mem_map.mpr ⟨p, hp, eq_of_beq hbeq⟩)

theorem setKey_map_fst {α : Type} (r : List (String × α)) (k : String) (v : α) :
    (setKey r k v).map Prod.fst =
      if r.any (fun p => p.1 == k) then r.map Prod.fst
      else r.map Prod.fst ++ [k] := by
  unfold setKey
  split
  case isTrue h =>
    rw [List.map_map]
    apply List.map_congr_left
    intro p _
    by_cases hpk : p.1 == k
    · simp only [Function.comp_apply, if_pos hpk]
      exact (eq_of_beq hpk).symm
    · simp only [Function.comp_apply, if_neg hpk]
  case isFalse h => rw [List.map_append]; rfl

theorem mem_setKey_map_fst {α : Type} (r : List (String × α)) (k : String) (v : α)
    (l : String) (hl : l ∈ r.map Prod.fst ++ [k]) :
    l ∈ (setKey r k v).map Prod.fst := by
  rw [setKey_map_fst]
  split
  case isTrue h =>
    rcases List.mem_append.mp hl with h' | h'
    · exact h'
    · obtain ⟨p, hp, hbeq⟩ := List.any_eq_true.mp h
      have : l = k := by simpa using h'
      rw [this]
      exact List.mem_map.mpr ⟨p, hp, eq_of_beq hbeq⟩
  case isFalse h => exact hl

/-- Claim C5: after every successful `publishSkill`, the stored metadata
has a non-null `latest` that is a key of `versions` (stated for a first
publish, where the write lands at the input-derived key); and relative
to a previously stored (decodable) metadata document whose own
`namespace`/`name` fields agree with the input (as every document the
engine writes does, since `saveMetadata` keys off those fields) and
whose version keys all have their content blobs present, publish
appends the new version (existing keys and entries untouched),
preserves `id` and `namespaceId`, and again leaves a non-null `latest`
among the version keys. -/
theorem metadata_invariants_publish (ctx : Ctx) (input : PublishSkillInput) (st : St)
    (h : ∃ r : PublishSkillResult, (publishSkill ctx input st).1 = Except.ok r) :
    (st.store (Keys.metadata input.ns input.name) = none →
      ∃ (m' : SkillMetadata) (l : String),
        (publishSkill ctx input st).2.store (Keys.metadata input.ns input.name) =
          some (StoreVal.metaDoc m') ∧
        m'.latest = some l ∧ l ∈ m'.versions.map Prod.fst) ∧
    (∀ old : SkillMetadata,
      st.store (Keys.metadata input.ns input.name) =
        some (StoreVal.metaDoc old) →
      old.ns = input.ns → old.name = input.name →
      (∀ v ∈ old.versions.map Prod.fst,
        (st.store (Keys.version input.ns input.name v)).isSome) →
      ∃ m' : SkillMetadata,
        (publishSkill ctx input st).2.store (Keys.metadata input.ns input.name) =
          some (StoreVal.metaDoc m') ∧
        (∃ l, m'.latest = some l ∧ l ∈ m'.versions.map Prod.fst) ∧
        m'.id = old.id ∧ m'.namespaceId = old.namespaceId ∧
        m'.versions = old.versions ++ [(input.version,
          { published := ctx.now, size := input.content.utf8ByteSize,
            checksum := ctx.checksum input.content })]) := by
  obtain ⟨r, hok⟩ := h
  obtain ⟨h1, h2', ⟨pf, hpf, h4⟩, hvk, hlm⟩ := publishSkill_ok_inv ctx input st r hok
  rcases hlm with hlm | ⟨old0, hlm⟩
  · -- create branch
    have heq := publishSkill_create ctx input st pf h1 h2' hpf h4 hvk hlm
    have hstore := loadMetadata_ok_none st.store input.ns input.name hlm
    have hlookupC :
        (publishSkill ctx input st).2.store (Keys.metadata input.ns input.name) =
          some (StoreVal.metaDoc (createdMeta ctx input st)) := by
      rw [heq]
      dsimp only
      simp [Store.put, createdMeta]
    constructor
    · intro _
      exact ⟨createdMeta ctx input st, input.version, hlookupC, rfl,
        by simp [createdMeta]⟩
    · intro old hold _ _ _
      rw [hstore] at hold
      exact absurd hold (by simp)
  · -- update branch
    have heq := publishSkill_update ctx input st pf old0 h1 h2' hpf h4 hvk hlm
    obtain ⟨hstore0, _⟩ := loadMetadata_ok_some st.store input.ns input.name old0 hlm
    constructor
    · intro hnone
      rw [hstore0] at hnone
      exact absurd hnone (by simp)
    · intro old hold hns hname hblobs
      rw [hstore0] at hold
      injection hold with hold'
      injection hold' with hold''
      subst hold''
      have hlookup :
          (publishSkill ctx input st).2.store (Keys.metadata input.ns input.name) =
            some (StoreVal.metaDoc
              { old0 with
                updated := ctx.now,
                versions := setKey old0.versions input.version
                  { published := ctx.now, size := input.content.utf8ByteSize,
                    checksum := ctx.checksum input.content },
                latest := resolveLatestVersion
                  (old0.versions.map Prod.fst ++ [input.version]) }) := by
        rw [heq]
        dsimp only
        rw [hns, hname]
        simp [Store.put]
      have hnotin : input.version ∉ old0.versions.map Prod.fst := by
        intro hmem
        have := hblobs input.version hmem
        rw [hvk] at this
        exact absurd this (by simp)
      obtain ⟨l, hlmem, hlres⟩ :=
        resolveLatestVersion_mem (old0.versions.map Prod.fst ++ [input.version])
          (by simp)
      refine ⟨_, hlookup, ⟨l, hlres, ?_⟩, rfl, rfl, ?_⟩
      · exact mem_setKey_map_fst old0.versions input.version _ l hlmem
      · exact setKey_not_mem old0.versions input.version _ hnotin

/-- Witness for C5: a second publish over the state left by a first
publish appends the new version and preserves the ids. -/
theorem metadata_invariants_publish_witness :
    ((pubX "1.0.0" emptySt).store (Keys.metadata "acme" "x") = none →
      ∃ (m' : SkillMetadata) (l : String),
        (publishSkill cCtx (inputX "1.1.0") (pubX "1.0.0" emptySt)).2.store
            (Keys.metadata "acme" "x") = some (StoreVal.metaDoc m') ∧
        m'.latest = some l ∧ l ∈ m'.versions.map Prod.fst) ∧
    (∀ old : SkillMetadata,
      (pubX "1.0.0" emptySt).store (Keys.metadata "acme" "x") =
        some (StoreVal.metaDoc old) →
      old.ns = "acme" → old.name = "x" →
      (∀ v ∈ old.versions.map Prod.fst,
        ((pubX "1.0.0" emptySt).store (Keys.version "acme" "x" v)).isSome) →
      ∃ m' : SkillMetadata,
        (publishSkill cCtx (inputX "1.1.0") (pubX "1.0.0" emptySt)).2.store
            (Keys.metadata "acme" "x") = some (StoreVal.metaDoc m') ∧
        (∃ l, m'.latest = some l ∧ l ∈ m'.versions.map Prod.fst) ∧
        m'.id = old.id ∧ m'.namespaceId = old.namespaceId ∧
        m'.versions = old.versions ++ [("1.1.0",
          { published := cCtx.now, size := contentX.utf8ByteSize,
            checksum := cCtx.checksum contentX })]) :=
  metadata_invariants_publish cCtx (inputX "1.1.0") (pubX "1.0.0" emptySt)
    ⟨{ ns := "acme", name := "x", version := "1.1.0", size := 35,
       checksum := "sha256:stub",
       frontmatter := { name := "x", description := "d" } }, by decide⟩

/-- If some line of the input is non-blank, not two-space-indented and
fails the top-level key-value regex, the `parseSimpleYaml` loop fails
with `INVALID_YAML`, from any intermediate state. -/
theorem yamlLoop_error (badLine : Chars) (hnb : trimChars badLine ≠ [])
    (hni : badLine.take 2 ≠ [' ', ' ']) (hnm : matchTopKV badLine = none) :
    ∀ lines : List Chars, badLine ∈ lines →
    ∀ (result : List (String × YamlVal)) (ck : Option String)
      (co : Option (List (String × String))),
      ∃ e : FrontmatterError, yamlLoop lines result ck co = Except.error e ∧
        e.code = FrontmatterErrorCode.INVALID_YAML := by
  intro lines
  induction lines with
  | nil => intro hmem; simp at hmem
  | cons line rest ih =>
    intro hmem result ck co
    simp only [yamlLoop]
    by_cases hblank : (trimChars line).isEmpty = true
    · have hne : badLine ≠ line := by
        intro h
        rw [h] at hnb
        exact hnb (List.isEmpty_iff.mp hblank)
      have hmem' : badLine ∈ rest := by
        rcases List.mem_cons.mp hmem with h | h
        · exact absurd h hne
        · exact h
      rw [if_pos hblank]
      exact ih hmem' result ck co
    · rw [if_neg hblank]
      by_cases hc2 : (line.take 2 = [' ', ' '] && ck.isSome) = true
      · have hne : badLine ≠ line := by
          intro h
          apply hni
          rw [h]
          have h2 := hc2
          simp only [Bool.and_eq_true, decide_eq_true_eq] at h2
          exact h2.1
        have hmem' : badLine ∈ rest := by
          rcases List.mem_cons.mp hmem with h | h
          · exact absurd h hne
          · exact h
        rw [if_pos hc2]
        cases hnest : matchNestedKV line with
        | some kv =>
          obtain ⟨k, v⟩ := kv
          exact ih hmem' _ _ _
        | none =>
          exact ih hmem' _ _ _
      · rw [if_neg hc2]
        cases hm : matchTopKV line with
        | none =>
          exact ⟨_, rfl, rfl⟩
        | some kv =>
          obtain ⟨k, v⟩ := kv
          have hne : badLine ≠ line := by
            intro h
            rw [h] at hnm
            rw [hnm] at hm
            exact absurd hm (by simp)
          have hmem' : badLine ∈ rest := by
            rcases List.mem_cons.mp hmem with h | h
            · exact absurd h hne
            · exact h
          dsimp only
          by_cases hval : String.mk (trimChars v) = ""
          · rw [if_pos hval]
            exact ih hmem' _ _ _
          · rw [if_neg hval]
            exact ih hmem' _ _ _

/-- Counterexample to claim C6 as stated: this document's header block
contains the line `"  ???bad"`, which is non-blank and matches neither
the top-level nor the nested key-value grammar, yet `parseFrontmatter`
succeeds — the loop silently skips an indented line that fails the
nested regex once a top-level key has been seen. -/
theorem frontmatter_indented_skip_counterexample :
    (∃ pf : ParsedFrontmatter,
      parseFrontmatter "---\nname: x\ndescription: d\n  ???bad\n---\nb" =
        Except.ok pf) ∧
    "  ???bad".data ∈ yamlLinesOf "---\nname: x\ndescription: d\n  ???bad\n---\nb" ∧
    trimChars "  ???bad".data ≠ [] ∧
    matchTopKV "  ???bad".data = none ∧
    matchNestedKV "  ???bad".data = none :=
  ⟨⟨⟨⟨"x", "d", none, none, none⟩, "b"⟩, by decide⟩,
    by decide, by decide, by decide, by decide⟩

/-- Claim C6 (amended): a document not starting with `---`, or missing
the closing delimiter, is a `MissingFrontmatter` failure; and any
header-block line that is non-blank, does **not** begin with two spaces
and matches neither grammar forces a parse failure of kind
`MissingFrontmatter` or `InvalidYaml`.  (Indented lines that match
neither grammar are silently skipped once a top-level key has been
parsed — see the counterexample.) -/
theorem frontmatter_reject_amended :
    (∀ content : String, ¬(content.data.take 3 = ['-', '-', '-']) →
      parseFrontmatter content = Except.error
        ⟨FrontmatterErrorCode.MISSING_FRONTMATTER,
          "Content must start with YAML frontmatter (---)", none⟩) ∧
    (∀ content : String, content.data.take 3 = ['-', '-', '-'] →
      jsIndexOfFrom content.data ['\n', '-', '-', '-'] 3 = none →
      parseFrontmatter content = Except.error
        ⟨FrontmatterErrorCode.MISSING_FRONTMATTER,
          "Frontmatter must have a closing delimiter (---)", none⟩) ∧
    (∀ (content : String) (line : Chars), line ∈ yamlLinesOf content →
      trimChars line ≠ [] → line.take 2 ≠ [' ', ' '] → matchTopKV line = none →
      ∃ e : FrontmatterError, parseFrontmatter content = Except.error e ∧
        (e.code = FrontmatterErrorCode.MISSING_FRONTMATTER ∨
          e.code = FrontmatterErrorCode.INVALID_YAML)) := by
  refine ⟨?_, ?_, ?_⟩
  · intro content h
    unfold parseFrontmatter
    dsimp only
    rw [if_neg h]
  · intro content h1 h2
    unfold parseFrontmatter
    dsimp only
    rw [if_pos h1, h2]
  · intro content line hmem hnb hni hnm
    by_cases h1 : content.data.take 3 = ['-', '-', '-']
    · cases hidx : jsIndexOfFrom content.data ['\n', '-', '-', '-'] 3 with
      | none =>
        unfold yamlLinesOf at hmem
        rw [hidx] at hmem
        simp at hmem
      | some endIndex =>
        have hlines : yamlLinesOf content =
            splitOnChar '\n'
              (trimChars ((content.data.drop 4).take (endIndex - 4))) := by
          unfold yamlLinesOf
          rw [hidx]
        rw [hlines] at hmem
        obtain ⟨e, he, hc⟩ := yamlLoop_error line hnb hni hnm _ hmem [] none none
        have hps : parseSimpleYaml
            (trimChars ((content.data.drop 4).take (endIndex - 4))) =
            Except.error e := he
        refine ⟨e, ?_, Or.inr hc⟩
        unfold parseFrontmatter
        dsimp only
        rw [if_pos h1, hidx]
        dsimp only
        rw [hps]
    · refine ⟨⟨FrontmatterErrorCode.MISSING_FRONTMATTER,
          "Content must start with YAML frontmatter (---)", none⟩, ?_, Or.inl rfl⟩
      unfold parseFrontmatter
      dsimp only
      rw [if_neg h1]

/-- Witness for the amended C6 at concrete documents. -/
theorem frontmatter_reject_amended_witness :
    parseFrontmatter "# nope" = Except.error
      ⟨FrontmatterErrorCode.MISSING_FRONTMATTER,
        "Content must start with YAML frontmatter (---)", none⟩ ∧
    parseFrontmatter "---\nname: x" = Except.error
      ⟨FrontmatterErrorCode.MISSING_FRONTMATTER,
        "Frontmatter must have a closing delimiter (---)", none⟩ ∧
    (∃ e : FrontmatterError,
      parseFrontmatter "---\nname x\n---\nb" = Except.error e ∧
        (e.code = FrontmatterErrorCode.MISSING_FRONTMATTER ∨
          e.code = FrontmatterErrorCode.INVALID_YAML)) :=
  ⟨frontmatter_reject_amended.1 "# nope" (by decide),
    frontmatter_reject_amended.2.1 "---\nname: x" (by decide) (by decide),
    frontmatter_reject_amended.2.2 "---\nname x\n---\nb" "name x".data
      (by decide) (by decide) (by decide) (by decide)⟩

/-! ### Preservation of stored values across engine operations (claim C1) -/
theorem store_put_self (s : Store) (k : String) (w : StoreVal) :
    Store.put s k w k = some w := by
  unfold Store.put
  rw [if_pos rfl]

theorem store_put_ne (s : Store) (k1 k : String) (w : StoreVal) (h : k ≠ k1) :
    Store.put s k1 w k = s k := by
  unfold Store.put
  rw [if_neg h]

theorem getOrCreateNamespaceId_store_lookup (ctx : Ctx) (ns : String) (st : St)
    (k : String) (hk : k ≠ Keys.userProfile ns) :
    (getOrCreateNamespaceId ctx ns st).2.store k = st.store k := by
  unfold getOrCreateNamespaceId
  dsimp only
  cases hdec : (st.store (Keys.userProfile ns)).bind decodeProfileVal with
  | some p => rfl
  | none =>
    dsimp only
    exact store_put_ne st.store (Keys.userProfile ns) k _ hk

theorem updateProfile_store_lookup (ctx : Ctx) (input : UpdateProfileInput) (st : St)
    (k : String) (hk : k ≠ Keys.userProfile input.ns) :
    (updateProfile ctx input st).2.store k = st.store k := by
  unfold updateProfile
  by_cases hid : input.identity.ns ≠ input.ns
  · rw [if_pos hid]
  · rw [if_neg hid]
    dsimp only
    cases hdec : (st.store (Keys.userProfile input.ns)).bind decodeProfileVal with
    | some p =>
      dsimp only
      exact store_put_ne st.store (Keys.userProfile input.ns) k _ hk
    | none =>
      dsimp only
      exact store_put_ne st.store (Keys.userProfile input.ns) k _ hk

/-- A stored version blob survives any `publishSkill` call: the only
write to a version key is the atomic create-if-absent, and metadata and
profile writes target keys with different suffixes. -/
theorem publishSkill_preserves_version_blob (ctx : Ctx) (input : PublishSkillInput)
    (st : St) (a b c : String) (v : StoreVal)
    (h : st.store (Keys.version a b c) = some v) :
    (publishSkill ctx input st).2.store (Keys.version a b c) = some v := by
  have hne_meta : ∀ d e2 : String, Keys.version a b c ≠ Keys.metadata d e2 :=
    fun d e2 => version_key_ne_metadata_key a b c d e2
  have hne_prof : ∀ d : String, Keys.version a b c ≠ Keys.userProfile d :=
    fun d => version_key_ne_profile_key a b c d
  by_cases h1 : input.identity.ns = input.ns
  case neg => rw [publishSkill_forbidden ctx input st h1]; exact h
  case pos =>
  by_cases h2 : input.content.utf8ByteSize > ctx.maxSkillBytes
  case pos => rw [publishSkill_oversize ctx input st h1 h2]; exact h
  case neg =>
  have h2' : input.content.utf8ByteSize ≤ ctx.maxSkillBytes := Nat.not_lt.mp h2
  cases hpf : parseFrontmatter input.content with
  | error fe => rw [publishSkill_fm_error ctx input st fe h1 h2' hpf]; exact h
  | ok pf =>
    by_cases h4 : pf.frontmatter.name = input.name
    case neg =>
      rw [publishSkill_name_mismatch ctx input st pf h1 h2' hpf h4]
      exact h
    case pos =>
    cases hvk : st.store (Keys.version input.ns input.name input.version) with
    | some w =>
      rw [publishSkill_already_exists ctx input st pf w h1 h2' hpf h4 hvk]
      exact h
    | none =>
      have hne_self : Keys.version a b c ≠
          Keys.version input.ns input.name input.version := by
        intro heq
        rw [heq] at h
        rw [h] at hvk
        exact absurd hvk (by simp)
      have hput : Store.put st.store
          (Keys.version input.ns input.name input.version)
          (StoreVal.text input.content) (Keys.version a b c) = some v := by
        rw [store_put_ne _ _ _ _ hne_self]
        exact h
      cases hlm : loadMetadata st.store input.ns input.name with
      | error e2 =>
        rw [publishSkill_corrupt ctx input st pf e2 h1 h2' hpf h4 hvk hlm]
        exact hput
      | ok metaOpt =>
        cases metaOpt with
        | none =>
          rw [publishSkill_create ctx input st pf h1 h2' hpf h4 hvk hlm]
          dsimp only
          rw [store_put_ne _ _ _ _ (hne_meta input.ns input.name)]
          rw [getOrCreateNamespaceId_store_lookup ctx input.ns _ _
            (hne_prof input.ns)]
          exact hput
        | some old =>
          rw [publishSkill_update ctx input st pf old h1 h2' hpf h4 hvk hlm]
          dsimp only
          rw [store_put_ne _ _ _ _ (hne_meta old.ns old.name)]
          exact hput

/-! ### Validity of the metadata documents the engine writes -/
theorem validProfile_id (p : UserProfile) (h : validProfile p = true) :
    nanoidOk p.id = true := by
  unfold validProfile at h
  simp only [Bool.and_eq_true] at h
  exact h.1.1.1.1.1.1

theorem decodeProfileVal_valid (v : StoreVal) (p : UserProfile)
    (h : decodeProfileVal v = some p) : validProfile p = true := by
  cases v with
  | profileDoc q =>
    unfold decodeProfileVal at h
    dsimp only at h
    by_cases hq : validProfile q = true
    · rw [if_pos hq] at h
      injection h with h'
      rw [← h']
      exact hq
    · rw [if_neg hq] at h
      exact absurd h (by simp)
  | metaDoc m =>
    unfold decodeProfileVal at h
    dsimp only at h
    by_cases hq : validProfile (profileViewOfMeta m) = true
    · rw [if_pos hq] at h
      injection h with h'
      rw [← h']
      exact hq
    · rw [if_neg hq] at h
      exact absurd h (by simp)
  | text s => exact absurd h (by simp [decodeProfileVal])
  | badJson s => exact absurd h (by simp [decodeProfileVal])
  | badSchema s => exact absurd h (by simp [decodeProfileVal])

theorem getOrCreateNamespaceId_id_ok (ctx : Ctx) (ns : String) (st : St)
    (hgen : ∀ n, nanoidOk (ctx.gen n) = true) :
    nanoidOk (getOrCreateNamespaceId ctx ns st).1 = true := by
  unfold getOrCreateNamespaceId
  dsimp only
  cases hdec : (st.store (Keys.userProfile ns)).bind decodeProfileVal with
  | some p =>
    dsimp only
    rcases Option.bind_eq_some.mp hdec with ⟨v, _, hv⟩
    exact validProfile_id p (decodeProfileVal_valid v p hv)
  | none => exact hgen st.ctr

theorem setKey_all {α : Type} (r : List (String × α)) (k : String) (v : α)
    (p : String × α → Bool) (hr : r.all p = true) (hkv : p (k, v) = true) :
    (setKey r k v).all p = true := by
  unfold setKey
  split
  case isTrue h =>
    rw [List.all_eq_true] at hr ⊢
    intro x hx
    obtain ⟨y, hy, hyx⟩ := List.mem_map.mp hx
    by_cases hyk : y.1 == k
    · rw [if_pos hyk] at hyx
      rw [← hyx]
      exact hkv
    · rw [if_neg hyk] at hyx
      rw [← hyx]
      exact hr y hy
  case isFalse h =>
    rw [List.all_eq_true] at hr ⊢
    intro x hx
    rcases List.mem_append.mp hx with hx | hx
    · exact hr x hx
    · have : x = (k, v) := by simpa using hx
      rw [this]
      exact hkv

theorem resolveLatestVersion_all_semver (vs : List String) (l : String)
    (hall : ∀ x ∈ vs, semverOk x = true)
    (h : resolveLatestVersion vs = some l) : semverOk l = true := by
  have hne : vs ≠ [] := by
    intro h0
    rw [h0] at h
    simp [resolveLatestVersion] at h
  obtain ⟨v, hv, hres⟩ := resolveLatestVersion_mem vs hne
  rw [h] at hres
  injection hres with h'
  rw [h']
  exact hall v hv

/-- The metadata document the update branch of `publishSkill` writes is
schema-valid whenever the loaded one was, the published version string
is valid semver, and the timestamp is a valid datetime. -/
theorem validMetadata_update (old : SkillMetadata) (ver upd : String)
    (vi : VersionInfo) (hold : validMetadata old = true)
    (hver : semverOk ver = true) (hupd : datetimeOk upd = true)
    (hvi : validVersionInfo vi = true) :
    validMetadata
      { old with
        updated := upd,
        versions := setKey old.versions ver vi,
        latest := resolveLatestVersion (old.versions.map Prod.fst ++ [ver]) } = true := by
  unfold validMetadata at hold ⊢
  simp only [Bool.and_eq_true] at hold ⊢
  obtain ⟨⟨⟨⟨⟨⟨⟨hid, hnsid⟩, hns⟩, hname⟩, hcr⟩, hup⟩, hvers⟩, hlat⟩ := hold
  refine ⟨⟨⟨⟨⟨⟨⟨hid, hnsid⟩, hns⟩, hname⟩, hcr⟩, hupd⟩, ?_⟩, ?_⟩
  · exact setKey_all old.versions ver vi _ hvers (by simp [hver, hvi])
  · dsimp only
    cases hres : resolveLatestVersion (old.versions.map Prod.fst ++ [ver]) with
    | none => simp
    | some l =>
      have : semverOk l = true := by
        apply resolveLatestVersion_all_semver _ l _ hres
        intro x hx
        rcases List.mem_append.mp hx with hx | hx
        · obtain ⟨y, hy, hyx⟩ := List.mem_map.mp hx
          rw [List.all_eq_true] at hvers
          have := hvers y hy
          simp only [Bool.and_eq_true] at this
          rw [← hyx]
          exact this.1
        · have : x = ver := by simpa using hx
          rw [this]
          exact hver
      simpa using this

theorem St_store_proj (s : Store) (c : Nat) : (St.mk s c).store = s := rfl

/-- `publishSkill` preserves a stored valid metadata document at any
metadata key, provided its own timestamp is a valid datetime and its
version string valid semver (the only data of the call that can end up
inside a metadata document along the update path). -/
theorem publishSkill_preserves_goodMeta (ctx : Ctx) (input : PublishSkillInput)
    (st : St) (d e : String)
    (hnow : datetimeOk ctx.now = true) (hver : semverOk input.version = true)
    (h : GoodMetaAt st d e) :
    GoodMetaAt (publishSkill ctx input st).2 d e := by
  obtain ⟨m, hm, hvalid⟩ := h
  have hne_ver : ∀ a b c : String, Keys.metadata d e ≠ Keys.version a b c :=
    fun a b c heq => version_key_ne_metadata_key a b c d e heq.symm
  have hne_prof : ∀ a : String, Keys.metadata d e ≠ Keys.userProfile a :=
    fun a heq => profile_key_ne_metadata_key a d e heq.symm
  by_cases h1 : input.identity.ns = input.ns
  case neg =>
    rw [publishSkill_forbidden ctx input st h1]
    exact ⟨m, hm, hvalid⟩
  case pos =>
  by_cases h2 : input.content.utf8ByteSize > ctx.maxSkillBytes
  case pos =>
    rw [publishSkill_oversize ctx input st h1 h2]
    exact ⟨m, hm, hvalid⟩
  case neg =>
  have h2' : input.content.utf8ByteSize ≤ ctx.maxSkillBytes := Nat.not_lt.mp h2
  cases hpf : parseFrontmatter input.content with
  | error fe =>
    rw [publishSkill_fm_error ctx input st fe h1 h2' hpf]
    exact ⟨m, hm, hvalid⟩
  | ok pf =>
    by_cases h4 : pf.frontmatter.name = input.name
    case neg =>
      rw [publishSkill_name_mismatch ctx input st pf h1 h2' hpf h4]
      exact ⟨m, hm, hvalid⟩
    case pos =>
    cases hvk : st.store (Keys.version input.ns input.name input.version) with
    | some w =>
      rw [publishSkill_already_exists ctx input st pf w h1 h2' hpf h4 hvk]
      exact ⟨m, hm, hvalid⟩
    | none =>
      have hput : Store.put st.store
          (Keys.version input.ns input.name input.version)
          (StoreVal.text input.content) (Keys.metadata d e) =
            some (StoreVal.metaDoc m) := by
        rw [store_put_ne _ _ _ _ (hne_ver input.ns input.name input.version)]
        exact hm
      cases hlm : loadMetadata st.store input.ns input.name with
      | error e2 =>
        rw [publishSkill_corrupt ctx input st pf e2 h1 h2' hpf h4 hvk hlm]
        exact ⟨m, hput, hvalid⟩
      | ok metaOpt =>
        cases metaOpt with
        | none =>
          have habsent := loadMetadata_ok_none st.store input.ns input.name hlm
          have hne_target : Keys.metadata d e ≠ Keys.metadata input.ns input.name := by
            intro heq
            rw [heq] at hm
            rw [hm] at habsent
            exact absurd habsent (by simp)
          rw [publishSkill_create ctx input st pf h1 h2' hpf h4 hvk hlm]
          dsimp only
          refine ⟨m, ?_, hvalid⟩
          rw [St_store_proj, store_put_ne _ _ _ _ hne_target]
          rw [getOrCreateNamespaceId_store_lookup ctx input.ns _ _
            (hne_prof input.ns)]
          exact hput
        | some old =>
          obtain ⟨hstore_old, hold_valid⟩ :=
            loadMetadata_ok_some st.store input.ns input.name old hlm
          rw [publishSkill_update ctx input st pf old h1 h2' hpf h4 hvk hlm]
          dsimp only
          by_cases hk : Keys.metadata d e = Keys.metadata old.ns old.name
          · refine ⟨{ old with
                updated := ctx.now,
                versions := setKey old.versions input.version
                  { published := ctx.now, size := input.content.utf8ByteSize,
                    checksum := ctx.checksum input.content },
                latest := resolveLatestVersion
                  (old.versions.map Prod.fst ++ [input.version]) }, ?_, ?_⟩
            · rw [St_store_proj, hk]
              exact store_put_self _ _ _
            · exact validMetadata_update old input.version ctx.now
                { published := ctx.now, size := input.content.utf8ByteSize,
                  checksum := ctx.checksum input.content }
                hold_valid hver hnow (by simpa [validVersionInfo] using hnow)
          · refine ⟨m, ?_, hvalid⟩
            rw [St_store_proj, store_put_ne _ _ _ _ hk]
            exact hput

/-- `updateProfile` writes only at a profile key, so stored metadata is
untouched. -/
theorem updateProfile_preserves_goodMeta (ctx : Ctx) (input : UpdateProfileInput)
    (st : St) (d e : String) (h : GoodMetaAt st d e) :
    GoodMetaAt (updateProfile ctx input st).2 d e := by
  obtain ⟨m, hm, hvalid⟩ := h
  refine ⟨m, ?_, hvalid⟩
  rw [updateProfile_store_lookup ctx input st _
    (fun heq => profile_key_ne_metadata_key input.ns d e heq.symm)]
  exact hm

/-- `updateProfile` never touches version blobs either. -/
theorem updateProfile_preserves_version_blob (ctx : Ctx) (input : UpdateProfileInput)
    (st : St) (a b c : String) (v : StoreVal)
    (h : st.store (Keys.version a b c) = some v) :
    (updateProfile ctx input st).2.store (Keys.version a b c) = some v := by
  rw [updateProfile_store_lookup ctx input st _
    (version_key_ne_profile_key a b c input.ns)]
  exact h

theorem runOps_preserves_version_blob (ops : List Op) (st : St)
    (a b c : String) (v : StoreVal)
    (h : st.store (Keys.version a b c) = some v) :
    (runOps st ops).store (Keys.version a b c) = some v := by
  induction ops generalizing st with
  | nil => exact h
  | cons op rest ih =>
    have step : runOps st (op :: rest) = runOps (applyOp st op) rest := rfl
    rw [step]
    apply ih
    cases op with
    | pub ctx input => exact publishSkill_preserves_version_blob ctx input st a b c v h
    | upd ctx input => exact updateProfile_preserves_version_blob ctx input st a b c v h

theorem runOps_preserves_goodMeta (ops : List Op) (st : St) (d e : String)
    (hops : ∀ op ∈ ops, ValidOp op) (h : GoodMetaAt st d e) :
    GoodMetaAt (runOps st ops) d e := by
  induction ops generalizing st with
  | nil => exact h
  | cons op rest ih =>
    have step : runOps st (op :: rest) = runOps (applyOp st op) rest := rfl
    rw [step]
    apply ih
    · exact fun o ho => hops o (List.mem_cons_of_mem op ho)
    · cases op with
      | pub ctx input =>
        have hv := hops (Op.pub ctx input) (List.mem_cons_self _ _)
        exact publishSkill_preserves_goodMeta ctx input st d e hv.1 hv.2 h
      | upd ctx input => exact updateProfile_preserves_goodMeta ctx input st d e h

theorem createdMeta_valid (ctx : Ctx) (input : PublishSkillInput) (st : St)
    (h1 : datetimeOk ctx.now = true) (h2 : semverOk input.version = true)
    (h3 : namespaceOk input.ns = true) (h4 : skillNameOk input.name = true)
    (h5 : ∀ n, nanoidOk (ctx.gen n) = true) :
    validMetadata (createdMeta ctx input st) = true := by
  unfold createdMeta validMetadata
  dsimp only
  simp only [Bool.and_eq_true]
  refine ⟨⟨⟨⟨⟨⟨⟨h5 _, ?_⟩, h3⟩, h4⟩, h1⟩, h1⟩, ?_⟩, ?_⟩
  · exact getOrCreateNamespaceId_id_ok ctx input.ns _ h5
  · simp [h2, h1, validVersionInfo]
  · simp [h2]

/-- After a successful publish the version blob is stored and a valid
metadata document sits at the skill's metadata key. -/
theorem publishSkill_ok_post (ctx : Ctx) (input : PublishSkillInput) (st : St)
    (r : PublishSkillResult)
    (h1v : datetimeOk ctx.now = true) (h2v : semverOk input.version = true)
    (h3v : namespaceOk input.ns = true) (h4v : skillNameOk input.name = true)
    (h5v : ∀ n, nanoidOk (ctx.gen n) = true)
    (h : (publishSkill ctx input st).1 = Except.ok r) :
    (publishSkill ctx input st).2.store
        (Keys.version input.ns input.name input.version) =
      some (StoreVal.text input.content) ∧
    GoodMetaAt (publishSkill ctx input st).2 input.ns input.name := by
  obtain ⟨h1, h2', ⟨pf, hpf, h4⟩, hvk, hlm⟩ := publishSkill_ok_inv ctx input st r h
  have hne_vm : Keys.version input.ns input.name input.version ≠
      Keys.metadata input.ns input.name :=
    version_key_ne_metadata_key input.ns input.name input.version input.ns input.name
  rcases hlm with hlm | ⟨old, hlm⟩
  · have heq := publishSkill_create ctx input st pf h1 h2' hpf h4 hvk hlm
    constructor
    · rw [heq]
      dsimp only
      rw [St_store_proj, store_put_ne _ _ _ _ hne_vm]
      rw [getOrCreateNamespaceId_store_lookup ctx input.ns _ _
        (version_key_ne_profile_key input.ns input.name input.version input.ns)]
      rw [St_store_proj]
      exact store_put_self _ _ _
    · refine ⟨createdMeta ctx input st, ?_,
        createdMeta_valid ctx input st h1v h2v h3v h4v h5v⟩
      rw [heq]
      dsimp only
      rw [St_store_proj]
      simp [Store.put, createdMeta]
  · have heq := publishSkill_update ctx input st pf old h1 h2' hpf h4 hvk hlm
    obtain ⟨hstore_old, hold_valid⟩ :=
      loadMetadata_ok_some st.store input.ns input.name old hlm
    constructor
    · rw [heq]
      dsimp only
      rw [St_store_proj, store_put_ne _ _ _ _
        (version_key_ne_metadata_key input.ns input.name input.version old.ns old.name)]
      exact store_put_self _ _ _
    · by_cases hk : Keys.metadata input.ns input.name = Keys.metadata old.ns old.name
      · refine ⟨{ old with
            updated := ctx.now,
            versions := setKey old.versions input.version
              { published := ctx.now, size := input.content.utf8ByteSize,
                checksum := ctx.checksum input.content },
            latest := resolveLatestVersion
              (old.versions.map Prod.fst ++ [input.version]) }, ?_, ?_⟩
        · rw [heq]
          dsimp only
          rw [St_store_proj, hk]
          exact store_put_self _ _ _
        · exact validMetadata_update old input.version ctx.now
            { published := ctx.now, size := input.content.utf8ByteSize,
              checksum := ctx.checksum input.content }
            hold_valid h2v h1v (by simpa [validVersionInfo] using h1v)
      · refine ⟨old, ?_, hold_valid⟩
        rw [heq]
        dsimp only
        rw [St_store_proj, store_put_ne _ _ _ _ hk,
          store_put_ne _ _ _ _ hne_vm.symm]
        exact hstore_old

/-- Counterexample to claim C1 as stated: after a successful publish of
`@acme/x@1.0.0`, a later publish of the *same triple* whose content has
no frontmatter fails with `InvalidInput` — not `VersionAlreadyExists` —
because the frontmatter check runs before the immutability check. -/
theorem publish_republish_counterexample :
    (∃ r : PublishSkillResult,
      (publishSkill cCtx (inputX "1.0.0") emptySt).1 = Except.ok r) ∧
    (∃ e : DomainError,
      (publishSkill cCtx
          { ns := "acme", name := "x", version := "1.0.0",
            content := "garbage", identity := { ns := "acme" } }
          (pubX "1.0.0" emptySt)).1 = Except.error e ∧
        e.code = ErrorCode.INVALID_INPUT ∧
        e.code ≠ ErrorCode.VERSION_ALREADY_EXISTS) :=
  ⟨⟨{ ns := "acme", name := "x", version := "1.0.0", size := 35,
      checksum := "sha256:stub",
      frontmatter := { name := "x", description := "d" } }, by decide⟩,
    ⟨Errors.invalidInput "content"
        "Content must start with YAML frontmatter (---)",
      by decide, by decide, by decide⟩⟩

/-- Claim C1 (amended): once `publishSkill` succeeds for a triple, then
after any further sequence of (validated) mutating engine calls:
(a) every later publish of the same triple fails;
(b) a later publish of the same triple that passes the authorization,
size, frontmatter and name checks fails precisely with
`VersionAlreadyExists`; and
(c) `getSkillContent` for the triple still returns exactly the
originally published content. -/
theorem publish_immutable_amended (ctx0 : Ctx) (input0 : PublishSkillInput)
    (st0 : St) (r : PublishSkillResult) (ops : List Op)
    (h1v : datetimeOk ctx0.now = true) (h2v : semverOk input0.version = true)
    (h3v : namespaceOk input0.ns = true) (h4v : skillNameOk input0.name = true)
    (h5v : ∀ n, nanoidOk (ctx0.gen n) = true)
    (hpub : (publishSkill ctx0 input0 st0).1 = Except.ok r)
    (hops : ∀ op ∈ ops, ValidOp op) :
    (∀ (ctx2 : Ctx) (input2 : PublishSkillInput),
      input2.ns = input0.ns → input2.name = input0.name →
      input2.version = input0.version →
      ∃ e : DomainError,
        (publishSkill ctx2 input2
          (runOps (publishSkill ctx0 input0 st0).2 ops)).1 = Except.error e) ∧
    (∀ (ctx2 : Ctx) (input2 : PublishSkillInput) (pf : ParsedFrontmatter),
      input2.ns = input0.ns → input2.name = input0.name →
      input2.version = input0.version →
      input2.identity.ns = input2.ns →
      input2.content.utf8ByteSize ≤ ctx2.maxSkillBytes →
      parseFrontmatter input2.content = Except.ok pf →
      pf.frontmatter.name = input2.name →
      (publishSkill ctx2 input2
          (runOps (publishSkill ctx0 input0 st0).2 ops)).1 =
        Except.error
          (Errors.versionAlreadyExists input0.ns input0.name input0.version)) ∧
    (∃ res : GetSkillContentResult,
      getSkillContent input0.ns input0.name input0.version
          (runOps (publishSkill ctx0 input0 st0).2 ops) = Except.ok res ∧
        res.content = StoreVal.text input0.content) := by
  obtain ⟨hblob1, hmeta1⟩ :=
    publishSkill_ok_post ctx0 input0 st0 r h1v h2v h3v h4v h5v hpub
  have hblob2 := runOps_preserves_version_blob ops _ input0.ns input0.name
    input0.version _ hblob1
  have hmeta2 := runOps_preserves_goodMeta ops _ input0.ns input0.name hops hmeta1
  have halready : ∀ (ctx2 : Ctx) (input2 : PublishSkillInput)
      (pf : ParsedFrontmatter),
      input2.ns = input0.ns → input2.name = input0.name →
      input2.version = input0.version →
      input2.identity.ns = input2.ns →
      input2.content.utf8ByteSize ≤ ctx2.maxSkillBytes →
      parseFrontmatter input2.content = Except.ok pf →
      pf.frontmatter.name = input2.name →
      (publishSkill ctx2 input2
          (runOps (publishSkill ctx0 input0 st0).2 ops)).1 =
        Except.error
          (Errors.versionAlreadyExists input0.ns input0.name input0.version) := by
    intro ctx2 input2 pf hns hname hver hid hsize hpf hfname
    have hvk : (runOps (publishSkill ctx0 input0 st0).2 ops).store
        (Keys.version input2.ns input2.name input2.version) =
        some (StoreVal.text input0.content) := by
      rw [hns, hname, hver]
      exact hblob2
    have := congrArg Prod.fst
      (publishSkill_already_exists ctx2 input2 _ pf (StoreVal.text input0.content)
        hid hsize hpf hfname hvk)
    rw [this, hns, hname, hver]
  refine ⟨?_, halready, ?_⟩
  · intro ctx2 input2 hns hname hver
    by_cases hid : input2.identity.ns = input2.ns
    case neg =>
      exact ⟨_, congrArg Prod.fst (publishSkill_forbidden ctx2 input2 _ hid)⟩
    case pos =>
    by_cases hsz : input2.content.utf8ByteSize > ctx2.maxSkillBytes
    case pos =>
      exact ⟨_, congrArg Prod.fst (publishSkill_oversize ctx2 input2 _ hid hsz)⟩
    case neg =>
    have hsz' : input2.content.utf8ByteSize ≤ ctx2.maxSkillBytes := Nat.not_lt.mp hsz
    cases hpf : parseFrontmatter input2.content with
    | error fe =>
      exact ⟨_, congrArg Prod.fst
        (publishSkill_fm_error ctx2 input2 _ fe hid hsz' hpf)⟩
    | ok pf =>
      by_cases hfn : pf.frontmatter.name = input2.name
      case neg =>
        exact ⟨_, congrArg Prod.fst
          (publishSkill_name_mismatch ctx2 input2 _ pf hid hsz' hpf hfn)⟩
      case pos =>
        exact ⟨_, halready ctx2 input2 pf hns hname hver hid hsz' hpf hfn⟩
  · obtain ⟨m, hm, hmv⟩ := hmeta2
    refine ⟨⟨StoreVal.text input0.content, m.id, m.namespaceId⟩, ?_, rfl⟩
    unfold getSkillContent
    rw [loadMetadata_metaDoc _ input0.ns input0.name m hm hmv]
    dsimp only
    rw [hblob2]

/-- Witness for the amended C1: a concrete publish, one interleaved
profile update, then a republish of the same triple and a content
read-back. -/
theorem publish_immutable_amended_witness :
    (publishSkill cCtx (inputX "1.0.0")
        (runOps (publishSkill cCtx (inputX "1.0.0") emptySt).2
          [Op.upd cCtx updInputAcme])).1 =
      Except.error (Errors.versionAlreadyExists "acme" "x" "1.0.0") ∧
    (∃ res : GetSkillContentResult,
      getSkillContent "acme" "x" "1.0.0"
          (runOps (publishSkill cCtx (inputX "1.0.0") emptySt).2
            [Op.upd cCtx updInputAcme]) = Except.ok res ∧
        res.content = StoreVal.text contentX) := by
  have H := publish_immutable_amended cCtx (inputX "1.0.0") emptySt
    { ns := "acme", name := "x", version := "1.0.0", size := 35,
      checksum := "sha256:stub",
      frontmatter := { name := "x", description := "d" } }
    [Op.upd cCtx updInputAcme]
    (by decide) (by decide) (by decide) (by decide)
    (fun _ => show nanoidOk "AAAAAAAAAAAAAAAAAAAAA" = true by decide)
    (by decide)
    (fun op hop => by rw [List.mem_singleton.mp hop]; trivial)
  exact ⟨H.2.1 cCtx (inputX "1.0.0") ⟨⟨"x", "d", none, none, none⟩, "body"⟩
      rfl rfl rfl (by decide) (by decide) (by decide) (by decide), H.2.2⟩
